import Mathlib

/-!
# Verification of the pixel-level image-processing engine
# of `case-converter-ocr` (`src/utils/imageUtils.ts`)

This file gives a shallow embedding, in Lean 4, of the image-processing
core of the repository: pixel buffers, the upscaler with its interpolation
kernels, the two background-removal strategies, and the watermark
detection / removal pipeline.  Every definition is translated from the
TypeScript source (`src/utils/imageUtils.ts`); the few places where the
source calls browser or `Math` built-ins whose exact values are not
integer-expressible (Float64 `Math.exp`, `Math.sqrt`, `Math.sin`,
`Math.PI`, and hardware canvas resampling) are modelled by an explicit
record of those externals (`Extern`), so that all definitions remain
computable and every theorem quantifies over (or instantiates) that
record.  JavaScript `number` arithmetic on pixel data is idealised as
exact rational arithmetic; `Uint8ClampedArray` stores are modelled by
clamping to `[0,255]` followed by round-half-to-even, and `Math.round`
by `⌊x + 1/2⌋`, matching the ECMAScript semantics on exact values.

Conventions:
* a pixel array is a total function `ℕ → ℕ` giving the byte at each
  index of its RGBA8 row-major data (indices at or beyond `4*width*height`
  are irrelevant and never written);
* mutation is modelled by `Function.update` folds that follow the
  source's loop structure;
* JavaScript `for (i = a; i < b; i++)` loops become folds over
  `intRange a b` / `List.range`; the two `for (i = 0; i < bound;
  i += stride)` border-sampling loops, whose stride can be `0`, are
  modelled by an explicitly fuelled loop (`strideLoop`) so that
  non-termination is observable as `Option.none`.
-/

/-- RGBA8 image buffer: `data i` is the byte at index `i` of the
row-major RGBA array (meaningful for `i < 4 * width * height`). -/
structure PixelBuffer where
  width : ℕ
  height : ℕ
  data : ℕ → ℕ

/-- Integer rectangle `{x, y, width, height}` as used for watermark
regions (coordinates may be negative or out of bounds). -/
structure Region where
  x : ℤ
  y : ℤ
  width : ℤ
  height : ℤ
  deriving DecidableEq, Repr

/-- The external (non-integer-exact) primitives the source relies on:
Float64 transcendental functions from `Math`, and the browser's built-in
canvas resampler used for the `nearest`/`bilinear` upscale paths.
All image-processing definitions are parameterised by this record. -/
structure Extern where
  exp : ℚ → ℚ
  sqrt : ℚ → ℚ
  sin : ℚ → ℚ
  pi : ℚ
  resample : PixelBuffer → ℕ → ℕ → Bool → ℕ → ℕ

/-- JavaScript `Math.round`: round half toward positive infinity. -/
def jsRound (q : ℚ) : ℤ := ⌊q + 1/2⌋

/-- Store a rational into a `Uint8ClampedArray` cell: clamp to
`[0, 255]`, then round to nearest with ties to even. -/
def u8 (q : ℚ) : ℕ :=
  if q ≤ 0 then 0
  else if 255 ≤ q then 255
  else
    let n : ℤ := ⌊q⌋
    let r : ℚ := q - n
    (if r < 1/2 then n
     else if 1/2 < r then n + 1
     else if n % 2 = 0 then n else n + 1).toNat

/-- `for (i = lo; i < hi; i++)` iteration domain over integers. -/
def intRange (lo hi : ℤ) : List ℤ :=
  (List.range (hi - lo).toNat).map (fun k => lo + (k : ℤ))

theorem intRange_eq_nil {lo hi : ℤ} (h : hi ≤ lo) : intRange lo hi = [] := by
  simp [intRange, Int.toNat_of_nonpos (by omega : hi - lo ≤ 0)]

theorem foldl_id_of_keep {α β : Type} (L : List α) (step : β → α → β)
    (h : ∀ q ∈ L, ∀ d, step d q = d) : ∀ d, L.foldl step d = d := by
  induction L with
  | nil => intro d; rfl
  | cons a as ih =>
    intro d
    rw [List.foldl_cons, h a (List.mem_cons_self a as)]
    exact ih (fun r hr d2 => h r (List.mem_cons_of_mem a hr) d2) d

/-- Pointwise version: a fold whose every step leaves index `i`
unchanged leaves the value at `i` unchanged. -/
theorem foldl_apply_of_keep {α : Type} (L : List α)
    (step : (ℕ → ℕ) → α → (ℕ → ℕ)) (i : ℕ)
    (h : ∀ q ∈ L, ∀ d, step d q i = d i) :
    ∀ d, (L.foldl step d) i = d i := by
  induction L with
  | nil => intro d; rfl
  | cons a as ih =>
    intro d
    rw [List.foldl_cons]
    rw [ih (fun r hr d2 => h r (List.mem_cons_of_mem a hr) d2)]
    exact h a (List.mem_cons_self a as) d

/- ------------------------------------------------------------------
   4.1  Interpolators: `cubicWeight` (bicubic) and `lanczosWeight`
   ------------------------------------------------------------------ -/

/-- `cubicWeight` from the source: the Catmull-Rom style piecewise cubic
used as the per-axis bicubic weight. -/
def cubicWeight (t : ℚ) : ℚ :=
  let absT := |t|
  if absT ≤ 1 then 3/2 * absT * absT * absT - 5/2 * absT * absT + 1
  else if absT ≤ 2 then -(1/2) * absT * absT * absT + 5/2 * absT * absT - 4 * absT + 2
  else 0

/-- `lanczosWeight` from the source (radius-2 Lanczos window); `Math.PI`
and `Math.sin` are taken from the external model. -/
def lanczosWeight (M : Extern) (t : ℚ) (radius : ℚ) : ℚ :=
  if t = 0 then 1
  else if radius ≤ |t| then 0
  else
    let piT := M.pi * t
    let piTOverRadius := piT / radius
    (radius * M.sin piT * M.sin piTOverRadius) / (piT * piT)

/- ------------------------------------------------------------------
   4.6  `mergeOverlappingRegions`
   ------------------------------------------------------------------ -/

/-- The source's bounding-box intersection test (strict inequalities on
all four sides). -/
def regionsOverlap (a b : Region) : Bool :=
  decide (a.x < b.x + b.width) && decide (a.x + a.width > b.x) &&
  decide (a.y < b.y + b.height) && decide (a.y + a.height > b.y)

/-- Bounding-box union of two regions, as computed in the merge loop. -/
def regionUnion (a b : Region) : Region :=
  let minX := min a.x b.x
  let minY := min a.y b.y
  let maxX := max (a.x + a.width) (b.x + b.width)
  let maxY := max (a.y + a.height) (b.y + b.height)
  ⟨minX, minY, maxX - minX, maxY - minY⟩

/-- `mergeOverlappingRegions` from the source: a single greedy pass.
For each unused index `i`, the region absorbs every later unused region
that overlaps the *current* (growing) rectangle; the pass is not
repeated, so the output list is not necessarily overlap-free. -/
def mergeOverlappingRegions (regions : List Region) : List Region :=
  if regions.length ≤ 1 then regions
  else
    let n := regions.length
    let outer := fun (acc : List Region × (ℕ → Bool)) (i : ℕ) =>
      if acc.2 i then acc
      else
        let inner := (List.range n).foldl
          (fun (st : Region × (ℕ → Bool)) (j : ℕ) =>
            if j ≤ i then st
            else if st.2 j then st
            else
              let other := regions.getD j ⟨0, 0, 0, 0⟩
              if regionsOverlap st.1 other then
                (regionUnion st.1 other, Function.update st.2 j true)
              else st)
          (regions.getD i ⟨0, 0, 0, 0⟩, Function.update acc.2 i true)
        (acc.1 ++ [inner.1], inner.2)
    ((List.range n).foldl outer ([], fun _ => false)).1

/- ------------------------------------------------------------------
   Claim C8: the bicubic per-axis weight function
   ------------------------------------------------------------------ -/

/-- C8.  `cubicWeight` satisfies the piecewise Catmull-Rom formula of
the specification: `1.5|t|³ − 2.5t² + 1` on `|t| ≤ 1`,
`−0.5|t|³ + 2.5t² − 4|t| + 2` on `1 < |t| ≤ 2`, and `0` for `|t| > 2`;
in particular `cubicWeight 0 = 1`. -/
theorem cubicWeight_spec (t : ℚ) :
    (|t| ≤ 1 → cubicWeight t = 3/2 * |t|^3 - 5/2 * t^2 + 1) ∧
    (1 < |t| → |t| ≤ 2 → cubicWeight t = -(1/2) * |t|^3 + 5/2 * t^2 - 4 * |t| + 2) ∧
    (2 < |t| → cubicWeight t = 0) ∧
    cubicWeight 0 = 1 := by
  refine ⟨fun h => ?_, fun h1 h2 => ?_, fun h => ?_, by norm_num [cubicWeight]⟩
  · rw [cubicWeight]
    simp only [h, if_pos]
    rw [← sq_abs t]
    ring
  · rw [cubicWeight]
    rw [if_neg (by linarith), if_pos h2]
    rw [← sq_abs t]
    ring
  · rw [cubicWeight]
    rw [if_neg (by linarith), if_neg (by linarith)]

/-- Witness for C8 at the concrete inputs `t = 0` and `t = 3`. -/
theorem cubicWeight_spec_witness :
    cubicWeight 0 = 1 ∧ cubicWeight 3 = 0 :=
  ⟨(cubicWeight_spec 0).2.2.2, (cubicWeight_spec 3).2.2.1 (by norm_num)⟩

/- ------------------------------------------------------------------
   Claim C4: the merge step
   ------------------------------------------------------------------ -/

/-- C4 counterexample.  The merge is a single greedy pass, so its output
can still contain two intersecting rectangles: on the candidate list
`[(0,0,10,10), (12,0,10,10), (5,5,10,10)]` the first region absorbs the
third (checked after the second), growing to `(0,0,15,15)`, which now
overlaps the already-skipped second region — the returned list
`[(0,0,15,15), (12,0,10,10)]` is not overlap-free, refuting the claim
that no two returned bounding boxes intersect. -/
theorem mergeOverlappingRegions_not_overlap_free :
    mergeOverlappingRegions [⟨0, 0, 10, 10⟩, ⟨12, 0, 10, 10⟩, ⟨5, 5, 10, 10⟩]
      = [⟨0, 0, 15, 15⟩, ⟨12, 0, 10, 10⟩] ∧
    regionsOverlap ⟨0, 0, 15, 15⟩ ⟨12, 0, 10, 10⟩ = true := by
  constructor
  · decide
  · decide

/-- C4 (amended).  The merge step is one greedy pass — each surviving
candidate absorbs, in index order, every later unused candidate that
overlaps its current grown bounding box, and the pass is not repeated —
and on the specification's example the two overlapping candidates
`{0,0,50,50}` and `{30,30,50,50}` do merge into exactly the single
region `{0,0,80,80}`. -/
theorem mergeOverlappingRegions_example :
    mergeOverlappingRegions [⟨0, 0, 50, 50⟩, ⟨30, 30, 50, 50⟩]
      = [⟨0, 0, 80, 80⟩] := by
  decide

/- ------------------------------------------------------------------
   4.4  `detectBackgroundColor` (border sampling + frequency buckets)
   ------------------------------------------------------------------ -/

/-- Fuelled model of `for (i = start; i < bound; i += stride)`,
returning the list of visited indices, or `none` when the fuel runs out
(in particular, for every fuel when `stride = 0` and `start < bound`,
matching the JavaScript loop's non-termination). -/
def strideLoop (fuel : ℕ) (i bound stride : ℕ) : Option (List ℕ) :=
  match fuel with
  | 0 => if i < bound then none else some []
  | fuel + 1 =>
    if i < bound then (strideLoop fuel (i + stride) bound stride).map (fun L => i :: L)
    else some []

theorem strideLoop_some (stride : ℕ) (hs : 1 ≤ stride) :
    ∀ (fuel i bound : ℕ), bound ≤ i + fuel →
      ∃ L, strideLoop fuel i bound stride = some L := by
  intro fuel
  induction fuel with
  | zero =>
    intro i bound h
    exact ⟨[], by simp [strideLoop, Nat.not_lt.mpr (by omega : bound ≤ i)]⟩
  | succ fuel ih =>
    intro i bound h
    by_cases hlt : i < bound
    · obtain ⟨L, hL⟩ := ih (i + stride) bound (by omega)
      exact ⟨i :: L, by simp [strideLoop, hlt, hL]⟩
    · exact ⟨[], by simp [strideLoop, hlt]⟩

theorem strideLoop_zero_stride_none (fuel : ℕ) :
    ∀ (i bound : ℕ), i < bound → strideLoop fuel i bound 0 = none := by
  induction fuel with
  | zero => intro i bound h; simp [strideLoop, h]
  | succ fuel ih => intro i bound h; simp [strideLoop, h, ih i bound h]

/-- The border samples collected by `detectBackgroundColor`: the top and
bottom rows at a stride of `⌊width/10⌋`, then the left and right columns
at a stride of `⌊height/10⌋`.  `none` models the non-terminating loop
when a stride is `0` while its bound is positive. -/
def bgSamples (buf : PixelBuffer) : Option (List (ℕ × ℕ × ℕ)) := do
  let w := buf.width
  let h := buf.height
  let d := buf.data
  let topIdx ← strideLoop (w + 1) 0 w (w / 10)
  let sideIdx ← strideLoop (h + 1) 0 h (h / 10)
  let rowSamples := topIdx.bind (fun i =>
    [(d (i * 4), d (i * 4 + 1), d (i * 4 + 2)),
     (d (((h - 1) * w + i) * 4), d (((h - 1) * w + i) * 4 + 1),
      d (((h - 1) * w + i) * 4 + 2))])
  let colSamples := sideIdx.bind (fun i =>
    [(d ((i * w) * 4), d ((i * w) * 4 + 1), d ((i * w) * 4 + 2)),
     (d ((i * w + w - 1) * 4), d ((i * w + w - 1) * 4 + 1),
      d ((i * w + w - 1) * 4 + 2))])
  some (rowSamples ++ colSamples)

/-- The source's quantisation key: `Math.floor(c / 10)` per channel
(buckets of width 10 — 26 levels per channel). -/
def bucketKey (c : ℕ × ℕ × ℕ) : ℕ × ℕ × ℕ := (c.1 / 10, c.2.1 / 10, c.2.2 / 10)

/-- One step of building the `colorCounts` map (a JavaScript `Map` in
insertion order): bump the existing bucket's count, or append a new
bucket remembering the first sample that opened it. -/
def insertSample (counts : List ((ℕ × ℕ × ℕ) × ℕ × (ℕ × ℕ × ℕ)))
    (c : ℕ × ℕ × ℕ) : List ((ℕ × ℕ × ℕ) × ℕ × (ℕ × ℕ × ℕ)) :=
  if counts.any (fun e => e.1 = bucketKey c) then
    counts.map (fun e => if e.1 = bucketKey c then (e.1, e.2.1 + 1, e.2.2) else e)
  else counts ++ [(bucketKey c, 1, c)]

/-- The frequency scan over the built map (`forEach` in insertion
order, strict `count > maxCount`, so ties keep the earlier bucket),
starting from `mostCommon = samples[0]` and `maxCount = 0`.
`none` models the `undefined` result on an empty sample list. -/
def pickMostCommon (samples : List (ℕ × ℕ × ℕ)) : Option (ℕ × ℕ × ℕ) :=
  match samples with
  | [] => none
  | s0 :: _ =>
    let counts := samples.foldl insertSample []
    some (counts.foldl
      (fun (acc : ℕ × (ℕ × ℕ × ℕ)) e =>
        if e.2.1 > acc.1 then (e.2.1, e.2.2) else acc)
      (0, s0)).2

/-- `detectBackgroundColor` from the source: border sampling followed by
the most-frequent-bucket scan. -/
def detectBackgroundColor (buf : PixelBuffer) : Option (ℕ × ℕ × ℕ) :=
  (bgSamples buf).bind pickMostCommon

/-- Quantisation following the specification's words (`32-level
granularity`, i.e. `Math.floor(c / 32)` per channel as in the source's
corner scan) — for comparison with the source's `Math.floor(c / 10)`. -/
def bucketKeySpec (c : ℕ × ℕ × ℕ) : ℕ × ℕ × ℕ := (c.1 / 32, c.2.1 / 32, c.2.2 / 32)

/-- `insertSample` with the specification's 32-level quantisation. -/
def insertSampleSpec (counts : List ((ℕ × ℕ × ℕ) × ℕ × (ℕ × ℕ × ℕ)))
    (c : ℕ × ℕ × ℕ) : List ((ℕ × ℕ × ℕ) × ℕ × (ℕ × ℕ × ℕ)) :=
  if counts.any (fun e => e.1 = bucketKeySpec c) then
    counts.map (fun e => if e.1 = bucketKeySpec c then (e.1, e.2.1 + 1, e.2.2) else e)
  else counts ++ [(bucketKeySpec c, 1, c)]

/-- Background-colour detection as the specification words it
(32-level-per-channel buckets); only the quantisation key differs from
`detectBackgroundColor`. -/
def detectBackgroundColorSpecQuant (buf : PixelBuffer) : Option (ℕ × ℕ × ℕ) :=
  (bgSamples buf).bind (fun samples =>
    match samples with
    | [] => none
    | s0 :: _ =>
      let counts := samples.foldl insertSampleSpec []
      some (counts.foldl
        (fun (acc : ℕ × (ℕ × ℕ × ℕ)) e =>
          if e.2.1 > acc.1 then (e.2.1, e.2.2) else acc)
        (0, s0)).2)

/-- A 10×10 test buffer: pixel (0,0) is black, every other pixel is the
dark gray (10,10,10); all alphas 255. -/
def bufGray10 : PixelBuffer :=
  ⟨10, 10, fun i =>
    if i < 4 then (if i = 3 then 255 else 0)
    else if i % 4 = 3 then 255 else 10⟩

/- ------------------------------------------------------------------
   Claim C5: background-colour detection
   ------------------------------------------------------------------ -/

/-- C5 counterexample.  The source quantises with `Math.floor(c/10)`
(buckets of width 10), not 32-level-per-channel buckets: on a 10×10
buffer whose border samples are two black pixels and 38 pixels of value
(10,10,10), the source's bucketing separates 0 from 10 and returns
(10,10,10), while 32-level bucketing puts all samples in one bucket and
returns its first sample (0,0,0). -/
theorem detectBackgroundColor_quantisation_counterexample :
    detectBackgroundColor bufGray10 = some (10, 10, 10) ∧
    detectBackgroundColorSpecQuant bufGray10 = some (0, 0, 0) ∧
    detectBackgroundColor bufGray10 ≠ detectBackgroundColorSpecQuant bufGray10 := by
  refine ⟨by decide, by decide, ?_⟩
  intro h
  rw [(by decide : detectBackgroundColor bufGray10 = some (10, 10, 10)),
      (by decide : detectBackgroundColorSpecQuant bufGray10 = some (0, 0, 0))] at h
  simp at h

/- ------------------------------------------------------------------
   Claim C10: termination of the border-sampling loops
   ------------------------------------------------------------------ -/

/-- A degenerate 0×0 buffer. -/
def bufEmpty : PixelBuffer := ⟨0, 0, fun _ => 0⟩

theorem strideLoop_border_some {w : ℕ} (h : w = 0 ∨ 10 ≤ w) :
    ∃ L, strideLoop (w + 1) 0 w (w / 10) = some L := by
  rcases h with h0 | h10
  · subst h0; exact ⟨[], rfl⟩
  · exact strideLoop_some (w / 10)
      ((Nat.le_div_iff_mul_le (by norm_num)).mpr (by omega)) (w + 1) 0 w (by omega)

theorem strideLoop_border_none {w : ℕ} (h1 : 1 ≤ w) (h9 : w < 10) :
    strideLoop (w + 1) 0 w (w / 10) = none := by
  have : w / 10 = 0 := Nat.div_eq_of_lt h9
  rw [this]
  exact strideLoop_zero_stride_none (w + 1) 0 w h1

/-- C10 counterexample.  A 0×0 buffer is narrower (and shorter) than 10
pixels, yet both border-sampling loops of `detectBackgroundColor`
terminate immediately, because their bounds are 0 — refuting "for any
buffer narrower or shorter than 10 pixels the loop never terminates". -/
theorem bgSamples_terminates_on_empty_buffer :
    (bgSamples bufEmpty).isSome = true ∧ bufEmpty.width < 10 ∧ bufEmpty.height < 10 :=
  ⟨by decide, by decide, by decide⟩

/-- C10 (amended).  The border sampling of `detectBackgroundColor`
terminates iff each loop's bound is zero or its stride positive, i.e.
iff `(width = 0 ∨ 10 ≤ width) ∧ (height = 0 ∨ 10 ≤ height)`: it always
terminates when both dimensions are at least 10 (stride
`⌊dim/10⌋ ≥ 1`), and never terminates when `1 ≤ width < 10`, or when
`width ∈ {0} ∪ [10,∞)` and `1 ≤ height < 10` (stride 0 with a positive
bound). -/
theorem bgSamples_terminates_iff (buf : PixelBuffer) :
    (bgSamples buf).isSome = true ↔
      ((buf.width = 0 ∨ 10 ≤ buf.width) ∧ (buf.height = 0 ∨ 10 ≤ buf.height)) := by
  constructor
  · intro hs
    by_contra hcon
    rw [not_and_or] at hcon
    rcases hcon with hcw | hch
    · have h1 : 1 ≤ buf.width := by omega
      have h9 : buf.width < 10 := by omega
      rw [bgSamples, strideLoop_border_none h1 h9] at hs
      simp at hs
    · have h1 : 1 ≤ buf.height := by omega
      have h9 : buf.height < 10 := by omega
      cases hopt : strideLoop (buf.width + 1) 0 buf.width (buf.width / 10) with
      | none => rw [bgSamples, hopt] at hs; simp at hs
      | some L1 =>
        rw [bgSamples, hopt, strideLoop_border_none h1 h9] at hs
        simp at hs
  · rintro ⟨hw, hh⟩
    obtain ⟨L1, hL1⟩ := strideLoop_border_some hw
    obtain ⟨L2, hL2⟩ := strideLoop_border_some hh
    rw [bgSamples, hL1, hL2]
    simp

/- ------------------------------------------------------------------
   Claim C5 (amended): the detected colour is one of the border samples
   ------------------------------------------------------------------ -/

theorem insertSample_colors {S : List (ℕ × ℕ × ℕ)} :
    ∀ (L : List (ℕ × ℕ × ℕ)) (acc : List ((ℕ × ℕ × ℕ) × ℕ × (ℕ × ℕ × ℕ))),
      (∀ e ∈ acc, e.2.2 ∈ S) → (∀ x ∈ L, x ∈ S) →
      ∀ e ∈ L.foldl insertSample acc, e.2.2 ∈ S := by
  intro L
  induction L with
  | nil => intro acc hacc _ e he; exact hacc e he
  | cons c cs ih =>
    intro acc hacc hL e he
    rw [List.foldl_cons] at he
    refine ih (insertSample acc c) ?_ (fun x hx => hL x (List.mem_cons_of_mem c hx)) e he
    intro e2 he2
    rw [insertSample] at he2
    by_cases hb : acc.any (fun e => e.1 = bucketKey c)
    · rw [if_pos hb] at he2
      obtain ⟨e0, he0, heq⟩ := List.mem_map.mp he2
      by_cases hk : e0.1 = bucketKey c
      · rw [if_pos hk] at heq
        have : e2.2.2 = e0.2.2 := by rw [← heq]
        rw [this]; exact hacc e0 he0
      · rw [if_neg hk] at heq
        rw [← heq]; exact hacc e0 he0
    · rw [if_neg hb] at he2
      rcases List.mem_append.mp he2 with hin | hlast
      · exact hacc e2 hin
      · rw [List.mem_singleton.mp hlast]
        exact hL c (List.mem_cons_self c cs)

theorem pickFold_mem {S : List (ℕ × ℕ × ℕ)} :
    ∀ (entries : List ((ℕ × ℕ × ℕ) × ℕ × (ℕ × ℕ × ℕ))) (acc : ℕ × (ℕ × ℕ × ℕ)),
      acc.2 ∈ S → (∀ e ∈ entries, e.2.2 ∈ S) →
      (entries.foldl
        (fun (acc : ℕ × (ℕ × ℕ × ℕ)) e =>
          if e.2.1 > acc.1 then (e.2.1, e.2.2) else acc) acc).2 ∈ S := by
  intro entries
  induction entries with
  | nil => intro acc hacc _; exact hacc
  | cons e es ih =>
    intro acc hacc hents
    rw [List.foldl_cons]
    by_cases hgt : e.2.1 > acc.1
    · rw [if_pos hgt]
      exact ih (e.2.1, e.2.2) (hents e (List.mem_cons_self e es))
        (fun x hx => hents x (List.mem_cons_of_mem e hx))
    · rw [if_neg hgt]
      exact ih acc hacc (fun x hx => hents x (List.mem_cons_of_mem e hx))

theorem pickMostCommon_mem (samples : List (ℕ × ℕ × ℕ)) (c : ℕ × ℕ × ℕ)
    (h : pickMostCommon samples = some c) : c ∈ samples := by
  match samples with
  | [] => simp [pickMostCommon] at h
  | s0 :: rest =>
    rw [pickMostCommon] at h
    have hc : c = ((((s0 :: rest).foldl insertSample []).foldl
        (fun (acc : ℕ × (ℕ × ℕ × ℕ)) e =>
          if e.2.1 > acc.1 then (e.2.1, e.2.2) else acc) (0, s0)).2) := by
      exact (Option.some_injective _ h).symm
    rw [hc]
    exact pickFold_mem ((s0 :: rest).foldl insertSample []) (0, s0)
      (List.mem_cons_self s0 rest)
      (insertSample_colors (s0 :: rest) [] (by intro e he; simp at he) (fun x hx => hx))

/-- C5 (amended).  On every buffer at least 10 pixels wide and tall,
`detectBackgroundColor` terminates and returns one of the actual border
samples — the first-stored colour of the most frequent
`⌊channel/10⌋`-quantised bucket (buckets of width 10, not 32-level
granularity), deterministically, with ties broken in favour of the
first-encountered bucket. -/
theorem detectBackgroundColor_returns_border_sample (buf : PixelBuffer)
    (hw : 10 ≤ buf.width) (hh : 10 ≤ buf.height) :
    ∃ samples c, bgSamples buf = some samples ∧
      detectBackgroundColor buf = some c ∧ c ∈ samples := by
  obtain ⟨L1, hL1⟩ := strideLoop_border_some (Or.inr hw)
  obtain ⟨L2, hL2⟩ := strideLoop_border_some (Or.inr hh)
  have hL1head : ∃ L1t, L1 = 0 :: L1t := by
    have h0 : (0 : ℕ) < buf.width := by omega
    simp [strideLoop, h0, Option.map_eq_some'] at hL1
    obtain ⟨a, _, ha⟩ := hL1
    exact ⟨a, ha.symm⟩
  obtain ⟨L1t, hL1t⟩ := hL1head
  have hsome : ∃ sms, bgSamples buf = some sms ∧ sms ≠ [] := by
    rw [bgSamples, hL1, hL2]
    refine ⟨_, rfl, ?_⟩
    rw [hL1t]
    simp [List.bind]
  obtain ⟨sms, hsms, hne⟩ := hsome
  obtain ⟨c, hc⟩ : ∃ c, pickMostCommon sms = some c := by
    match sms, hne with
    | a :: rest, _ => exact ⟨_, rfl⟩
  exact ⟨sms, c, hsms,
    by rw [detectBackgroundColor, hsms]; exact hc,
    pickMostCommon_mem sms c hc⟩

/- ------------------------------------------------------------------
   Generic characterisation lemmas for write loops
   ------------------------------------------------------------------ -/

theorem foldl_apply_stable {α : Type} (L : List α)
    (step : (ℕ → ℕ) → α → (ℕ → ℕ)) (i : ℕ) (v : ℕ)
    (h : ∀ q ∈ L, ∀ d, step d q i = d i ∨ step d q i = v) :
    ∀ d, d i = v → (L.foldl step d) i = v := by
  induction L with
  | nil => intro d hd; exact hd
  | cons a as ih =>
    intro d hd
    rw [List.foldl_cons]
    rcases h a (List.mem_cons_self a as) d with hk | hw
    · exact ih (fun q hq => h q (List.mem_cons_of_mem a hq)) (step d a) (hk.trans hd)
    · exact ih (fun q hq => h q (List.mem_cons_of_mem a hq)) (step d a) hw

/-- If some element of the list writes the constant `v` at `i`, and every
element either keeps `i` or writes that same `v`, the fold ends with `v`
at `i` (duplicates in the list are harmless). -/
theorem foldl_apply_hit {α : Type} (L : List α)
    (step : (ℕ → ℕ) → α → (ℕ → ℕ)) (i : ℕ) (v : ℕ) (p : α)
    (hmem : p ∈ L)
    (hset : ∀ d, step d p i = v)
    (h : ∀ q ∈ L, ∀ d, step d q i = d i ∨ step d q i = v) :
    ∀ d, (L.foldl step d) i = v := by
  induction L with
  | nil => cases hmem
  | cons a as ih =>
    intro d
    by_cases hpa : p ∈ as
    · rw [List.foldl_cons]
      exact ih hpa (fun q hq => h q (List.mem_cons_of_mem a hq)) (step d a)
    · have ha : a = p := by
        rcases List.mem_cons.mp hmem with h1 | h2
        · exact h1.symm
        · exact absurd h2 hpa
      rw [List.foldl_cons, ha]
      exact foldl_apply_stable as step i v
        (fun q hq => h q (List.mem_cons_of_mem a hq)) (step d p) (hset d)

/-- If `p` occurs exactly once in `L` (Nodup) and every other element
keeps index `i`, the fold at `i` is the single step of `p` applied to
the fold of the prefix before `p`. -/
theorem foldl_apply_once {α : Type} (L : List α)
    (step : (ℕ → ℕ) → α → (ℕ → ℕ)) (i : ℕ) (p : α)
    (hmem : p ∈ L) (hnd : L.Nodup)
    (hkeep : ∀ q ∈ L, q ≠ p → ∀ d, step d q i = d i) :
    ∃ L1 L2, L = L1 ++ p :: L2 ∧ p ∉ L1 ∧
      ∀ d, (L.foldl step d) i = step (L1.foldl step d) p i := by
  obtain ⟨L1, L2, hsplit⟩ := List.append_of_mem hmem
  have hpL1 : p ∉ L1 := by
    rw [hsplit] at hnd
    exact fun hc => (List.disjoint_of_nodup_append hnd) hc (List.mem_cons_self p L2)
  refine ⟨L1, L2, hsplit, hpL1, fun d => ?_⟩
  have hpnot : p ∉ L2 := by
    rw [hsplit] at hnd
    have := (List.nodup_append.mp hnd).2.1
    exact fun hc => (List.nodup_cons.mp this).1 hc
  rw [hsplit, List.foldl_append, List.foldl_cons]
  refine foldl_apply_of_keep L2 step i ?_ _
  intro q hq d2
  refine hkeep q ?_ (fun hqp => hpnot (hqp ▸ hq)) d2
  rw [hsplit]
  exact List.mem_append_right _ (List.mem_cons_of_mem p hq)

/-- Row-major pixel index is injective in `(y, x)` when `x < w`. -/
theorem pixel_index_inj {w x1 x2 y1 y2 : ℕ} (h1 : x1 < w) (h2 : x2 < w)
    (he : y1 * w + x1 = y2 * w + x2) : y1 = y2 ∧ x1 = x2 := by
  have hy : y1 = y2 := by
    rcases Nat.lt_trichotomy y1 y2 with hlt | heq | hgt
    · have ha := Nat.mul_le_mul_right w (Nat.succ_le_of_lt hlt)
      rw [Nat.succ_mul] at ha
      omega
    · exact heq
    · have ha := Nat.mul_le_mul_right w (Nat.succ_le_of_lt hgt)
      rw [Nat.succ_mul] at ha
      omega
  subst hy
  exact ⟨rfl, by omega⟩

/- ------------------------------------------------------------------
   4.7  `removeWatermarkByFrequencyAnalysis` / `applyHighPassFilter`
   ------------------------------------------------------------------ -/

/-- The 3×3 high-pass kernel `[[-1,-1,-1],[-1,8,-1],[-1,-1,-1]]`. -/
def kernelHP (ky kx : ℕ) : ℤ := if ky = 1 ∧ kx = 1 then 8 else -1

/-- Interior pixel traversal `(y, x)` for `y ∈ [1, h-1)`, `x ∈ [1, w-1)`
in source order (row by row). -/
def interiorPixels (w h : ℕ) : List (ℕ × ℕ) :=
  ((List.range (h - 2)).map (fun a => a + 1)).bind (fun y =>
    ((List.range (w - 2)).map (fun b => b + 1)).map (fun x => (y, x)))

theorem mem_interiorPixels {w h y x : ℕ} :
    (y, x) ∈ interiorPixels w h ↔ (1 ≤ y ∧ y + 1 < h ∧ 1 ≤ x ∧ x + 1 < w) := by
  simp only [interiorPixels, List.mem_bind, List.mem_map, List.mem_range]
  constructor
  · rintro ⟨y0, ⟨a, ha, hay⟩, x0, ⟨b, hb, hbx⟩, hpair⟩
    have h1 : y0 = y := (Prod.mk.injEq _ _ _ _ ▸ hpair).1
    have h2 : x0 = x := (Prod.mk.injEq _ _ _ _ ▸ hpair).2
    omega
  · rintro ⟨hy1, hy2, hx1, hx2⟩
    exact ⟨y, ⟨y - 1, by omega, by omega⟩, x, ⟨x - 1, by omega, by omega⟩, rfl⟩

/-- The 3×3 convolution sum at channel `c` of interior pixel `(x, y)`. -/
def hpSum (d : ℕ → ℕ) (w x y c : ℕ) : ℤ :=
  (List.range 3).foldl (fun s ky =>
    (List.range 3).foldl (fun s kx =>
      s + (d (((y + ky - 1) * w + (x + kx - 1)) * 4 + c) : ℤ) * kernelHP ky kx) s) 0

/-- One interior pixel of `applyHighPassFilter`: write the three clamped
RGB results, then copy the alpha channel. -/
def hpStep (d : ℕ → ℕ) (w : ℕ) (f : ℕ → ℕ) (p : ℕ × ℕ) : ℕ → ℕ :=
  let y := p.1
  let x := p.2
  let f2 := (List.range 3).foldl (fun g c =>
    Function.update g ((y * w + x) * 4 + c)
      (max 0 (min 255 (hpSum d w x y c + 128))).toNat) f
  Function.update f2 ((y * w + x) * 4 + 3) (d ((y * w + x) * 4 + 3))

/-- `applyHighPassFilter` from the source: the output array starts
zero-filled (`new Uint8ClampedArray(data.length)`), and only interior
pixels are written — border pixels keep the `0` prefill. -/
def applyHighPassFilter (d : ℕ → ℕ) (w h : ℕ) : ℕ → ℕ :=
  (interiorPixels w h).foldl (hpStep d w) (fun _ => 0)

/-- `removeWatermarkByFrequencyAnalysis` from the source: the filtered
array is copied back over the image data in full. -/
def removeWatermarkByFrequencyAnalysis (buf : PixelBuffer) : PixelBuffer :=
  let filtered := applyHighPassFilter buf.data buf.width buf.height
  ⟨buf.width, buf.height,
    fun i => if i < buf.width * buf.height * 4 then filtered i else buf.data i⟩

/- ------------------------------------------------------------------
   Claim C2: the frequency pass
   ------------------------------------------------------------------ -/

theorem hpStep_keeps {d : ℕ → ℕ} {w : ℕ} {q : ℕ × ℕ} {i : ℕ}
    (hqx : q.2 < w)
    (hne : ∀ c, c < 4 → i ≠ (q.1 * w + q.2) * 4 + c) :
    ∀ f, hpStep d w f q i = f i := by
  intro f
  simp only [hpStep]
  rw [Function.update_noteq (hne 3 (by norm_num))]
  refine foldl_apply_of_keep (List.range 3) _ i ?_ f
  intro c hc f2
  have hc4 := List.mem_range.mp hc
  exact Function.update_noteq (hne c (by omega)) _ _

theorem hpStep_alpha {d : ℕ → ℕ} {w : ℕ} {y x : ℕ} :
    ∀ f, hpStep d w f (y, x) ((y * w + x) * 4 + 3) = d ((y * w + x) * 4 + 3) := by
  intro f
  simp only [hpStep]
  exact Function.update_same _ _ _

theorem hpStep_rgb {d : ℕ → ℕ} {w : ℕ} {y x c : ℕ} (hc : c < 3) :
    ∀ f, hpStep d w f (y, x) ((y * w + x) * 4 + c)
      = (max 0 (min 255 (hpSum d w x y c + 128))).toNat := by
  intro f
  simp only [hpStep]
  rw [Function.update_noteq (by omega)]
  refine foldl_apply_hit (List.range 3) _ _ _ c (List.mem_range.mpr hc)
    (fun g => Function.update_same _ _ _) ?_ f
  intro c2 hc2 g
  by_cases hcc : c2 = c
  · subst hcc; exact Or.inr (Function.update_same _ _ _)
  · exact Or.inl (Function.update_noteq (by omega) _ _)

theorem applyHighPassFilter_interior (d : ℕ → ℕ) (w h x y : ℕ)
    (hx1 : 1 ≤ x) (hx2 : x + 1 < w) (hy1 : 1 ≤ y) (hy2 : y + 1 < h) :
    applyHighPassFilter d w h ((y * w + x) * 4 + 3) = d ((y * w + x) * 4 + 3) ∧
    ∀ c, c < 3 → applyHighPassFilter d w h ((y * w + x) * 4 + c)
      = (max 0 (min 255 (hpSum d w x y c + 128))).toNat := by
  have hmem : (y, x) ∈ interiorPixels w h :=
    mem_interiorPixels.mpr ⟨hy1, hy2, hx1, hx2⟩
  have hother : ∀ (q : ℕ × ℕ), q ∈ interiorPixels w h → ∀ c0, c0 < 4 →
      ∀ f, q ≠ (y, x) →
      hpStep d w f q ((y * w + x) * 4 + c0) = f ((y * w + x) * 4 + c0) := by
    intro q hq c0 hc0 f hqne
    obtain ⟨hqy1, hqy2, hqx1, hqx2⟩ :=
      (mem_interiorPixels (y := q.1) (x := q.2)).mp (by simpa using hq)
    refine hpStep_keeps (by omega) ?_ f
    intro c hc hcon
    obtain ⟨hpix, hcc⟩ : q.1 * w + q.2 = y * w + x ∧ c = c0 := by
      constructor <;> omega
    obtain ⟨hyy, hxx⟩ := pixel_index_inj (by omega) (by omega) hpix
    exact hqne (Prod.ext hyy hxx)
  constructor
  · refine foldl_apply_hit (interiorPixels w h) (hpStep d w) _ _ (y, x) hmem
      (fun f => hpStep_alpha f) ?_ (fun _ => 0)
    intro q hq f
    by_cases hqp : q = (y, x)
    · subst hqp; exact Or.inr (hpStep_alpha f)
    · exact Or.inl (hother q hq 3 (by norm_num) f hqp)
  · intro c hc
    refine foldl_apply_hit (interiorPixels w h) (hpStep d w) _ _ (y, x) hmem
      (fun f => hpStep_rgb hc f) ?_ (fun _ => 0)
    intro q hq f
    by_cases hqp : q = (y, x)
    · subst hqp; exact Or.inr (hpStep_rgb hc f)
    · exact Or.inl (hother q hq c (by omega) f hqp)

theorem applyHighPassFilter_border (d : ℕ → ℕ) (w h x y c : ℕ)
    (hx : x < w) (hy : y < h) (hc : c < 4)
    (hb : x = 0 ∨ x + 1 = w ∨ y = 0 ∨ y + 1 = h) :
    applyHighPassFilter d w h ((y * w + x) * 4 + c) = 0 := by
  refine foldl_apply_of_keep (interiorPixels w h) (hpStep d w) _ ?_ (fun _ => 0)
  intro q hq f
  obtain ⟨hqy1, hqy2, hqx1, hqx2⟩ :=
    (mem_interiorPixels (y := q.1) (x := q.2)).mp (by simpa using hq)
  refine hpStep_keeps (by omega) ?_ f
  intro c2 hc2 hcon
  obtain ⟨hpix, hcc⟩ : y * w + x = q.1 * w + q.2 ∧ c = c2 := by
    constructor <;> omega
  obtain ⟨hyy, hxx⟩ := pixel_index_inj (by omega) (by omega) hpix
  omega

/-- A 3×3 buffer with every byte 255 (opaque white). -/
def bufWhite3 : PixelBuffer := ⟨3, 3, fun _ => 255⟩

/-- C2 counterexample.  On an all-255 3×3 buffer, the frequency pass
zeroes the border pixels instead of leaving them unfiltered: the output
array of `applyHighPassFilter` starts zero-filled and only interior
pixels are written, yet `removeWatermarkByFrequencyAnalysis` copies it
back in full, so border pixel (0,0) ends with alpha 0 (byte 3) and red
0 (byte 0), both 255 in the input — refuting both the universal alpha
preservation and the border-RGB preservation of the claim. -/
theorem removeWatermarkByFrequencyAnalysis_border_zeroed :
    (removeWatermarkByFrequencyAnalysis bufWhite3).data 3 = 0 ∧
    bufWhite3.data 3 = 255 ∧
    (removeWatermarkByFrequencyAnalysis bufWhite3).data 0 = 0 ∧
    bufWhite3.data 0 = 255 :=
  ⟨by decide, rfl, by decide, rfl⟩

/-- C2 (amended).  After the frequency pass, interior pixels (covered by
the 3×3 kernel) keep their alpha exactly, and every border pixel
(row/column 0 or max) has all four channels set to 0 — the zero prefill
of the output array — rather than keeping its input value. -/
theorem removeWatermarkByFrequencyAnalysis_channels (buf : PixelBuffer)
    (x y : ℕ) (hx : x < buf.width) (hy : y < buf.height) :
    (1 ≤ x → x + 1 < buf.width → 1 ≤ y → y + 1 < buf.height →
      (removeWatermarkByFrequencyAnalysis buf).data ((y * buf.width + x) * 4 + 3)
        = buf.data ((y * buf.width + x) * 4 + 3)) ∧
    ((x = 0 ∨ x + 1 = buf.width ∨ y = 0 ∨ y + 1 = buf.height) →
      ∀ c, c < 4 →
        (removeWatermarkByFrequencyAnalysis buf).data ((y * buf.width + x) * 4 + c) = 0) := by
  have hlt : ∀ c, c < 4 → (y * buf.width + x) * 4 + c < buf.width * buf.height * 4 := by
    intro c hc
    have h2 : (y + 1) * buf.width ≤ buf.height * buf.width :=
      Nat.mul_le_mul_right _ hy
    rw [Nat.succ_mul] at h2
    have : y * buf.width + x < buf.width * buf.height := by
      have := Nat.mul_comm buf.height buf.width
      omega
    omega
  constructor
  · intro hx1 hx2 hy1 hy2
    rw [removeWatermarkByFrequencyAnalysis]
    simp only [if_pos (hlt 3 (by norm_num))]
    exact (applyHighPassFilter_interior buf.data buf.width buf.height x y hx1 hx2 hy1 hy2).1
  · intro hb c hc
    rw [removeWatermarkByFrequencyAnalysis]
    simp only [if_pos (hlt c hc)]
    exact applyHighPassFilter_border buf.data buf.width buf.height x y c hx hy hc hb

/-- Witness for C2 (amended) on the concrete all-255 3×3 buffer at the
interior pixel (1,1) and the border pixel (0,0). -/
theorem removeWatermarkByFrequencyAnalysis_channels_witness :
    (removeWatermarkByFrequencyAnalysis bufWhite3).data ((1 * 3 + 1) * 4 + 3)
      = bufWhite3.data ((1 * 3 + 1) * 4 + 3) ∧
    (removeWatermarkByFrequencyAnalysis bufWhite3).data ((0 * 3 + 0) * 4 + 3) = 0 :=
  ⟨(removeWatermarkByFrequencyAnalysis_channels bufWhite3 1 1 (by decide) (by decide)).1
      (by decide) (by decide) (by decide) (by decide),
   (removeWatermarkByFrequencyAnalysis_channels bufWhite3 0 0 (by decide) (by decide)).2
      (Or.inl rfl) 3 (by decide)⟩

/- ------------------------------------------------------------------
   4.5  Mask-based `removeBackground`
   ------------------------------------------------------------------ -/

/-- The mask-application loop of `removeBackground` from the source:
for every index `i` of the externally supplied segmentation mask, if
the mask value is background (`0`), set the pixel's alpha byte
(`data[i*4 + 3]`) to 0.  The canvas plumbing and the BodyPix call that
produces the mask are external collaborators; the mask is
`segmentation.data`. -/
def removeBackground (buf : PixelBuffer) (mask : List ℕ) : PixelBuffer :=
  ⟨buf.width, buf.height,
    (List.range mask.length).foldl
      (fun d i => if mask.getD i 0 = 0 then Function.update d (i * 4 + 3) 0 else d)
      buf.data⟩

/-- C6.  Mask-based background removal sets alpha to 0 at exactly the
pixels whose mask value is 0, and leaves the RGB bytes of every pixel —
and the alpha of every nonzero-mask pixel — unchanged. -/
theorem removeBackground_spec (buf : PixelBuffer) (mask : List ℕ)
    (hlen : mask.length = buf.width * buf.height) :
    ∀ i, i < buf.width * buf.height →
      ((removeBackground buf mask).data (i * 4 + 3)
        = if mask.getD i 0 = 0 then 0 else buf.data (i * 4 + 3)) ∧
      (∀ c, c < 3 →
        (removeBackground buf mask).data (i * 4 + c) = buf.data (i * 4 + c)) := by
  intro i hi
  constructor
  · obtain ⟨L1, L2, hsplit, hpL1, happ⟩ :=
      foldl_apply_once (List.range mask.length)
        (fun d j => if mask.getD j 0 = 0 then Function.update d (j * 4 + 3) 0 else d)
        (i * 4 + 3) i (List.mem_range.mpr (by omega)) (List.nodup_range _)
        (by
          intro q hq hqi d
          by_cases hm : mask.getD q 0 = 0
          · simp only [if_pos hm]
            exact Function.update_noteq (by omega) _ _
          · simp only [if_neg hm])
    rw [removeBackground]
    simp only []
    rw [happ buf.data]
    have hpre : (L1.foldl
        (fun d j => if mask.getD j 0 = 0 then Function.update d (j * 4 + 3) 0 else d)
        buf.data) (i * 4 + 3) = buf.data (i * 4 + 3) := by
      refine foldl_apply_of_keep L1 _ _ ?_ buf.data
      intro q hq d
      have hqi : q ≠ i := fun hqeq => hpL1 (hqeq ▸ hq)
      by_cases hm : mask.getD q 0 = 0
      · simp only [if_pos hm]
        exact Function.update_noteq (by omega) _ _
      · simp only [if_neg hm]
    by_cases hm : mask.getD i 0 = 0
    · simp only [if_pos hm]
      exact Function.update_same _ _ _
    · simp only [if_neg hm]
      exact hpre
  · intro c hc
    rw [removeBackground]
    simp only []
    refine foldl_apply_of_keep (List.range mask.length) _ _ ?_ buf.data
    intro q hq d
    by_cases hm : mask.getD q 0 = 0
    · simp only [if_pos hm]
      exact Function.update_noteq (by omega) _ _
    · simp only [if_neg hm]

/-- A fully opaque 7×7 white buffer. -/
def buf7 : PixelBuffer := ⟨7, 7, fun _ => 255⟩

/-- A 49-entry segmentation mask that is nonzero exactly on the 5×5
square of pixels with column < 5 and row < 5. -/
def maskSquare : List ℕ :=
  (List.range 49).map (fun i => if i % 7 < 5 ∧ i / 7 < 5 then 1 else 0)

/-- Witness for C6 on the concrete 7×7 opaque buffer and the 5×5-square
mask: the pixel (0,0) inside the square keeps alpha 255, the pixel
(6,6) outside it ends with alpha 0, and RGB is untouched. -/
theorem removeBackground_spec_witness :
    (removeBackground buf7 maskSquare).data (48 * 4 + 3) = 0 ∧
    (removeBackground buf7 maskSquare).data (0 * 4 + 3) = 255 ∧
    (removeBackground buf7 maskSquare).data (48 * 4 + 0) = 255 := by
  refine ⟨?_, ?_, ?_⟩
  · rw [(removeBackground_spec buf7 maskSquare (by decide) 48 (by decide)).1]
    decide
  · rw [(removeBackground_spec buf7 maskSquare (by decide) 0 (by decide)).1]
    decide
  · rw [(removeBackground_spec buf7 maskSquare (by decide) 48 (by decide)).2
      0 (by decide)]
    decide

/- ------------------------------------------------------------------
   4.3  `detectEdges` (Sobel) and 4.5 heuristic `removeBackgroundAdvanced`
   ------------------------------------------------------------------ -/

/-- `getGray` from the source: `(R + G + B) / 3` of pixel `(x, y)`. -/
def getGray (d : ℕ → ℕ) (x y w : ℕ) : ℚ :=
  ((d ((y * w + x) * 4) : ℚ) + (d ((y * w + x) * 4 + 1) : ℚ)
    + (d ((y * w + x) * 4 + 2) : ℚ)) / 3

/-- Sobel X response at interior pixel `(x, y)` (the source's `gx`). -/
def sobelGX (d : ℕ → ℕ) (w x y : ℕ) : ℚ :=
  -1 * getGray d (x - 1) (y - 1) w + 1 * getGray d (x + 1) (y - 1) w +
  -2 * getGray d (x - 1) y w + 2 * getGray d (x + 1) y w +
  -1 * getGray d (x - 1) (y + 1) w + 1 * getGray d (x + 1) (y + 1) w

/-- Sobel Y response at interior pixel `(x, y)` (the source's `gy`). -/
def sobelGY (d : ℕ → ℕ) (w x y : ℕ) : ℚ :=
  -1 * getGray d (x - 1) (y - 1) w + -2 * getGray d x (y - 1) w +
  -1 * getGray d (x + 1) (y - 1) w + 1 * getGray d (x - 1) (y + 1) w +
  2 * getGray d x (y + 1) w + 1 * getGray d (x + 1) (y + 1) w

/-- `detectEdges` from the source, as the boolean edge map it builds:
the array starts all-`false` and the loop writes each interior index
`y*w + x` exactly once, reading only `data`, so the map is given
pointwise.  The float test `Math.sqrt(gx² + gy²) > threshold` is
decided on squares: for `threshold ≥ 0` it is `threshold² < gx² + gy²`,
and for `threshold < 0` it always holds, by monotonicity of the exact
square root. -/
def detectEdges (d : ℕ → ℕ) (w h : ℕ) (threshold : ℚ) : ℕ → Bool := fun k =>
  let x := k % w
  let y := k / w
  if 1 ≤ x ∧ x + 1 < w ∧ 1 ≤ y ∧ y + 1 < h then
    decide (threshold < 0) ||
      decide (threshold ^ 2 < sobelGX d w x y ^ 2 + sobelGY d w x y ^ 2)
  else false

/-- Squared Euclidean RGB distance of pixel `i` to the background
colour (the source compares `Math.sqrt` of this to the tolerance). -/
def colorDist2 (d : ℕ → ℕ) (i : ℕ) (bg : ℕ × ℕ × ℕ) : ℚ :=
  ((d (i * 4) : ℚ) - bg.1) ^ 2 + ((d (i * 4 + 1) : ℚ) - bg.2.1) ^ 2 +
    ((d (i * 4 + 2) : ℚ) - bg.2.2) ^ 2

/-- The float test `Math.sqrt(dist2) < tol`, decided on squares:
it holds iff `0 < tol` and `dist2 < tol²`. -/
def distLtTol (dist2 tol : ℚ) : Bool :=
  decide (0 < tol) && decide (dist2 < tol ^ 2)

/-- One pixel of the background-removal loop: if the pixel's colour is
within tolerance of the background colour and the pixel is not on an
edge, set its alpha byte to 0. -/
def removeBgStep (bg : ℕ × ℕ × ℕ) (tol : ℚ) (edges : ℕ → Bool)
    (d : ℕ → ℕ) (i : ℕ) : ℕ → ℕ :=
  if distLtTol (colorDist2 d i bg) tol = true ∧ edges i = false
  then Function.update d (i * 4 + 3) 0 else d

/-- `applySmoothingToAlpha` from the source: a box average of the alpha
channel with the given radius, excluding out-of-bounds neighbours from
the average.  The loop reads the pre-loop copy (`original`) and writes
each alpha byte exactly once, so the result is given pointwise; the
`Uint8ClampedArray` store of `sum / count` is `u8`. -/
def applySmoothingToAlpha (d : ℕ → ℕ) (w h : ℕ) (radius : ℕ) : ℕ → ℕ := fun i =>
  if i < w * h * 4 ∧ i % 4 = 3 then
    let p := i / 4
    let x : ℤ := (p % w : ℕ)
    let y : ℤ := (p / w : ℕ)
    let vals := (intRange (-(radius : ℤ)) ((radius : ℤ) + 1)).bind (fun dy =>
      (intRange (-(radius : ℤ)) ((radius : ℤ) + 1)).filterMap (fun dx =>
        let nx := x + dx
        let ny := y + dy
        if 0 ≤ nx ∧ nx < (w : ℤ) ∧ 0 ≤ ny ∧ ny < (h : ℤ) then
          some (d ((ny.toNat * w + nx.toNat) * 4 + 3))
        else none))
    u8 ((vals.sum : ℚ) / (vals.length : ℚ))
  else d i

/-- The background-colour configuration of `removeBackgroundAdvanced`:
`'auto'` triggers `detectBackgroundColor`; otherwise the caller's hex
colour, already parsed by `hexToRgb` (with the `[255,255,255]`
fallback), is the given RGB triple. -/
inductive BgColorOption
  | auto
  | fixed (r g b : ℕ)

/-- The per-pixel phase of `removeBackgroundAdvanced` (edge map, colour
distance threshold, alpha clearing), followed by the optional alpha
smoothing when `smoothing > 1`. -/
def removeBackgroundAdvancedCore (buf : PixelBuffer) (bg : ℕ × ℕ × ℕ)
    (tol thr : ℚ) (smoothing : ℕ) : PixelBuffer :=
  let edges := detectEdges buf.data buf.width buf.height thr
  let d2 := (List.range (buf.width * buf.height)).foldl
    (removeBgStep bg tol edges) buf.data
  ⟨buf.width, buf.height,
    if 1 < smoothing then applySmoothingToAlpha d2 buf.width buf.height smoothing
    else d2⟩

/-- `removeBackgroundAdvanced` from the source; `none` models the
non-terminating auto-detection on buffers with a dimension in `[1,10)`
(and the `undefined` background on an empty sample list). -/
def removeBackgroundAdvanced (buf : PixelBuffer) (tol thr : ℚ) (smoothing : ℕ)
    (bgOpt : BgColorOption) : Option PixelBuffer :=
  match bgOpt with
  | BgColorOption.auto =>
    (detectBackgroundColor buf).map
      (fun bg => removeBackgroundAdvancedCore buf bg tol thr smoothing)
  | BgColorOption.fixed r g b =>
    some (removeBackgroundAdvancedCore buf (r, g, b) tol thr smoothing)

theorem removeBgStep_keep {bg : ℕ × ℕ × ℕ} {tol : ℚ} {edges : ℕ → Bool}
    {q k : ℕ} (hk : k ≠ q * 4 + 3) :
    ∀ d, removeBgStep bg tol edges d q k = d k := by
  intro d
  rw [removeBgStep]
  by_cases hcond : distLtTol (colorDist2 d q bg) tol = true ∧ edges q = false
  · rw [if_pos hcond]
    exact Function.update_noteq hk _ _
  · rw [if_neg hcond]

theorem removeBgFold_keep_mod {bg : ℕ × ℕ × ℕ} {tol : ℚ} {edges : ℕ → Bool}
    (L : List ℕ) (d0 : ℕ → ℕ) (k : ℕ) (hk : k % 4 ≠ 3) :
    (L.foldl (removeBgStep bg tol edges) d0) k = d0 k := by
  refine foldl_apply_of_keep L _ k ?_ d0
  intro q hq d
  exact removeBgStep_keep (by omega) d

theorem removeBgFold_alpha {bg : ℕ × ℕ × ℕ} {tol : ℚ} {edges : ℕ → Bool}
    (n : ℕ) (d0 : ℕ → ℕ) (i : ℕ) (hi : i < n) :
    ((List.range n).foldl (removeBgStep bg tol edges) d0) (i * 4 + 3)
      = if distLtTol (colorDist2 d0 i bg) tol = true ∧ edges i = false
        then 0 else d0 (i * 4 + 3) := by
  obtain ⟨L1, L2, hsplit, hpL1, happ⟩ :=
    foldl_apply_once (List.range n) (removeBgStep bg tol edges) (i * 4 + 3) i
      (List.mem_range.mpr hi) (List.nodup_range n)
      (fun q hq hqi d => removeBgStep_keep (by omega) d)
  rw [happ d0]
  have hacc0 : (L1.foldl (removeBgStep bg tol edges) d0) (i * 4) = d0 (i * 4) :=
    removeBgFold_keep_mod L1 d0 (i * 4) (by omega)
  have hacc1 : (L1.foldl (removeBgStep bg tol edges) d0) (i * 4 + 1) = d0 (i * 4 + 1) :=
    removeBgFold_keep_mod L1 d0 (i * 4 + 1) (by omega)
  have hacc2 : (L1.foldl (removeBgStep bg tol edges) d0) (i * 4 + 2) = d0 (i * 4 + 2) :=
    removeBgFold_keep_mod L1 d0 (i * 4 + 2) (by omega)
  have hacc3 : (L1.foldl (removeBgStep bg tol edges) d0) (i * 4 + 3) = d0 (i * 4 + 3) := by
    refine foldl_apply_of_keep L1 _ _ ?_ d0
    intro q hq d
    have hqi : q ≠ i := fun hqeq => hpL1 (hqeq ▸ hq)
    exact removeBgStep_keep (by omega) d
  have hdist : colorDist2 (L1.foldl (removeBgStep bg tol edges) d0) i bg
      = colorDist2 d0 i bg := by
    rw [colorDist2, colorDist2, hacc0, hacc1, hacc2]
  rw [removeBgStep, hdist]
  by_cases hcond : distLtTol (colorDist2 d0 i bg) tol = true ∧ edges i = false
  · rw [if_pos hcond, if_pos hcond]
    exact Function.update_same _ _ _
  · rw [if_neg hcond, if_neg hcond]
    exact hacc3

/-- The 100×100 fully opaque red buffer `(255, 0, 0, 255)` of the
specification's end-to-end scenario. -/
def bufRed100 : PixelBuffer :=
  ⟨100, 100, fun i => if i % 4 = 0 then 255 else if i % 4 = 3 then 255 else 0⟩

theorem bufRed100_bytes (m : ℕ) :
    bufRed100.data (m * 4) = 255 ∧ bufRed100.data (m * 4 + 1) = 0 ∧
    bufRed100.data (m * 4 + 2) = 0 ∧ bufRed100.data (m * 4 + 3) = 255 := by
  refine ⟨?_, ?_, ?_, ?_⟩ <;> simp only [bufRed100]
  · rw [(by omega : (m * 4) % 4 = 0)]; norm_num
  · rw [(by omega : (m * 4 + 1) % 4 = 1)]; norm_num
  · rw [(by omega : (m * 4 + 2) % 4 = 2)]; norm_num
  · rw [(by omega : (m * 4 + 3) % 4 = 3)]; norm_num

theorem getGray_red (x y : ℕ) : getGray bufRed100.data x y 100 = 85 := by
  rw [getGray]
  obtain ⟨h0, h1, h2, _⟩ := bufRed100_bytes (y * 100 + x)
  rw [h0, h1, h2]
  norm_num

theorem detectEdges_red (k : ℕ) :
    detectEdges bufRed100.data 100 100 50 k = false := by
  simp only [detectEdges]
  by_cases hint : 1 ≤ k % 100 ∧ k % 100 + 1 < 100 ∧ 1 ≤ k / 100 ∧ k / 100 + 1 < 100
  · rw [if_pos hint]
    have hx : sobelGX bufRed100.data 100 (k % 100) (k / 100) = 0 := by
      rw [sobelGX]
      simp only [getGray_red]
      norm_num
    have hy : sobelGY bufRed100.data 100 (k % 100) (k / 100) = 0 := by
      rw [sobelGY]
      simp only [getGray_red]
      norm_num
    rw [hx, hy]
    norm_num
  · rw [if_neg hint]

theorem colorDist2_red (i : ℕ) :
    colorDist2 bufRed100.data i (255, 0, 0) = 0 := by
  rw [colorDist2]
  obtain ⟨h0, h1, h2, _⟩ := bufRed100_bytes i
  rw [h0, h1, h2]
  norm_num

/-- The float distance test agrees with its exact real formulation. -/
theorem distLtTol_iff_sqrt (dist2 tol : ℚ) :
    distLtTol dist2 tol = true ↔ Real.sqrt ((dist2 : ℚ) : ℝ) < (tol : ℝ) := by
  rw [distLtTol]
  simp only [Bool.and_eq_true, decide_eq_true_eq]
  constructor
  · rintro ⟨h0, h2⟩
    refine (Real.sqrt_lt' (by exact_mod_cast h0)).mpr ?_
    rw [show ((tol : ℝ)) ^ 2 = (((tol ^ 2 : ℚ) : ℝ)) by push_cast; ring]
    exact_mod_cast h2
  · intro h
    have h0 : (0 : ℝ) < (tol : ℝ) := lt_of_le_of_lt (Real.sqrt_nonneg _) h
    have h2 := (Real.sqrt_lt' h0).mp h
    refine ⟨by exact_mod_cast h0, ?_⟩
    rw [show ((tol : ℝ)) ^ 2 = (((tol ^ 2 : ℚ) : ℝ)) by push_cast; ring] at h2
    exact_mod_cast h2

theorem colorDist2_cast (d : ℕ → ℕ) (i : ℕ) (bg : ℕ × ℕ × ℕ) :
    ((colorDist2 d i bg : ℚ) : ℝ)
      = ((d (i * 4) : ℝ) - bg.1) ^ 2 + ((d (i * 4 + 1) : ℝ) - bg.2.1) ^ 2 +
        ((d (i * 4 + 2) : ℝ) - bg.2.2) ^ 2 := by
  rw [colorDist2]
  push_cast
  ring

/- ------------------------------------------------------------------
   Claim C7: heuristic background removal
   ------------------------------------------------------------------ -/

/-- C7.  With a fixed background colour and the default smoothing `1`,
heuristic background removal sets a pixel's alpha to 0 exactly when the
Euclidean RGB distance to the background colour is strictly below the
tolerance AND the Sobel edge map does not flag the pixel; all other
channels (and every pixel's RGB) are unchanged.  Consequently the
100×100 uniform opaque red buffer, processed with `colorTolerance =
10`, `edgeThreshold = 50` and auto-detected background (detected as
red), ends with alpha 0 at every pixel. -/
theorem removeBackgroundAdvanced_spec :
    (∀ (buf : PixelBuffer) (r g b : ℕ) (tol thr : ℚ) (i : ℕ),
      i < buf.width * buf.height →
      ∃ out,
        removeBackgroundAdvanced buf tol thr 1 (BgColorOption.fixed r g b)
            = some out ∧
        (((Real.sqrt (((buf.data (i * 4) : ℝ) - (r : ℝ)) ^ 2 +
              ((buf.data (i * 4 + 1) : ℝ) - (g : ℝ)) ^ 2 +
              ((buf.data (i * 4 + 2) : ℝ) - (b : ℝ)) ^ 2) < (tol : ℝ) ∧
            detectEdges buf.data buf.width buf.height thr i = false) →
              out.data (i * 4 + 3) = 0) ∧
          ((¬(Real.sqrt (((buf.data (i * 4) : ℝ) - (r : ℝ)) ^ 2 +
              ((buf.data (i * 4 + 1) : ℝ) - (g : ℝ)) ^ 2 +
              ((buf.data (i * 4 + 2) : ℝ) - (b : ℝ)) ^ 2) < (tol : ℝ) ∧
            detectEdges buf.data buf.width buf.height thr i = false)) →
              out.data (i * 4 + 3) = buf.data (i * 4 + 3)) ∧
          (∀ c, c < 3 → out.data (i * 4 + c) = buf.data (i * 4 + c)))) ∧
    (∃ out,
      removeBackgroundAdvanced bufRed100 10 50 1 BgColorOption.auto = some out ∧
      ∀ i, i < 100 * 100 → out.data (i * 4 + 3) = 0) := by
  have hcore_alpha : ∀ (buf : PixelBuffer) (bg : ℕ × ℕ × ℕ) (tol thr : ℚ) (i : ℕ),
      i < buf.width * buf.height →
      (removeBackgroundAdvancedCore buf bg tol thr 1).data (i * 4 + 3)
        = if distLtTol (colorDist2 buf.data i bg) tol = true ∧
            detectEdges buf.data buf.width buf.height thr i = false
          then 0 else buf.data (i * 4 + 3) := by
    intro buf bg tol thr i hi
    simp only [removeBackgroundAdvancedCore]
    rw [if_neg (by norm_num)]
    exact removeBgFold_alpha (buf.width * buf.height) buf.data i hi
  have hcore_rgb : ∀ (buf : PixelBuffer) (bg : ℕ × ℕ × ℕ) (tol thr : ℚ) (i c : ℕ),
      c < 3 →
      (removeBackgroundAdvancedCore buf bg tol thr 1).data (i * 4 + c)
        = buf.data (i * 4 + c) := by
    intro buf bg tol thr i c hc
    simp only [removeBackgroundAdvancedCore]
    rw [if_neg (by norm_num)]
    exact removeBgFold_keep_mod _ buf.data (i * 4 + c) (by omega)
  constructor
  · intro buf r g b tol thr i hi
    refine ⟨removeBackgroundAdvancedCore buf (r, g, b) tol thr 1, rfl, ?_, ?_, ?_⟩
    · intro hcond
      have hb : distLtTol (colorDist2 buf.data i (r, g, b)) tol = true ∧
          detectEdges buf.data buf.width buf.height thr i = false := by
        refine ⟨?_, hcond.2⟩
        rw [distLtTol_iff_sqrt, colorDist2_cast]
        exact hcond.1
      rw [hcore_alpha buf (r, g, b) tol thr i hi, if_pos hb]
    · intro hcond
      have hb : ¬(distLtTol (colorDist2 buf.data i (r, g, b)) tol = true ∧
          detectEdges buf.data buf.width buf.height thr i = false) := by
        intro hcond2
        refine hcond ⟨?_, hcond2.2⟩
        have hr := hcond2.1
        rw [distLtTol_iff_sqrt, colorDist2_cast] at hr
        exact hr
      rw [hcore_alpha buf (r, g, b) tol thr i hi, if_neg hb]
    · intro c hc
      exact hcore_rgb buf (r, g, b) tol thr i c hc
  · refine ⟨removeBackgroundAdvancedCore bufRed100 (255, 0, 0) 10 50 1, ?_, ?_⟩
    · show (detectBackgroundColor bufRed100).map
        (fun bg => removeBackgroundAdvancedCore bufRed100 bg 10 50 1) = _
      rw [(by decide : detectBackgroundColor bufRed100 = some (255, 0, 0))]
      rfl
    · intro i hi
      have hb : distLtTol (colorDist2 bufRed100.data i (255, 0, 0)) 10 = true ∧
          detectEdges bufRed100.data bufRed100.width bufRed100.height 50 i = false := by
        constructor
        · rw [colorDist2_red]
          decide
        · exact detectEdges_red i
      rw [hcore_alpha bufRed100 (255, 0, 0) 10 50 i (by simpa using hi), if_pos hb]

/-- Witness for C7: a 3×3 opaque white buffer with fixed white
background and tolerance 10 — pixel 0 is within tolerance (distance 0)
and not an edge, so its alpha becomes 0, while its red byte stays 255. -/
theorem removeBackgroundAdvanced_spec_witness :
    ∃ out, removeBackgroundAdvanced bufWhite3 10 50 1
        (BgColorOption.fixed 255 255 255) = some out ∧
      out.data (0 * 4 + 3) = 0 ∧ out.data (0 * 4 + 0) = 255 := by
  obtain ⟨out, hout, h1, h2, h3⟩ :=
    removeBackgroundAdvanced_spec.1 bufWhite3 255 255 255 10 50 0
      (by norm_num [bufWhite3])
  refine ⟨out, hout, ?_, ?_⟩
  · refine h1 ⟨?_, by decide⟩
    have hz : ((bufWhite3.data (0 * 4) : ℝ) - (255 : ℕ)) ^ 2 +
        ((bufWhite3.data (0 * 4 + 1) : ℝ) - (255 : ℕ)) ^ 2 +
        ((bufWhite3.data (0 * 4 + 2) : ℝ) - (255 : ℕ)) ^ 2 = 0 := by
      norm_num [bufWhite3]
    rw [hz, Real.sqrt_zero]
    norm_num
  · have := h3 0 (by norm_num)
    rw [this]
    decide

/- ------------------------------------------------------------------
   4.1/4.2  Interpolated upscaling (`upscaleImage`)
   ------------------------------------------------------------------ -/

inductive UpscaleAlgorithm
  | bicubic
  | lanczos
  | nearest
  | bilinear
  deriving DecidableEq

/-- `Math.round` composed with the source's `[0,255]` clamp. -/
def clampRound255 (q : ℚ) : ℕ := (max 0 (min 255 (jsRound q))).toNat

/-- `bicubicInterpolation` from the source: Catmull-Rom weighted sum
over the 4×4 neighbourhood of `(⌊x⌋, ⌊y⌋)`, replicate-border clamped,
each channel clamped to `[0,255]` after `Math.round`. -/
def bicubicInterpolation (d : ℕ → ℕ) (x y : ℚ) (w h : ℕ) : ℕ × ℕ × ℕ × ℕ :=
  let x1 : ℤ := ⌊x⌋
  let y1 : ℤ := ⌊y⌋
  let dx : ℚ := x - (x1 : ℚ)
  let dy : ℚ := y - (y1 : ℚ)
  let acc := (intRange (-1) 3).foldl (fun (a : ℚ × ℚ × ℚ × ℚ) j =>
    (intRange (-1) 3).foldl (fun (a : ℚ × ℚ × ℚ × ℚ) i =>
      let px := (max 0 (min ((w : ℤ) - 1) (x1 + i))).toNat
      let py := (max 0 (min ((h : ℤ) - 1) (y1 + j))).toNat
      let idx := (py * w + px) * 4
      let weight := cubicWeight (dx - (i : ℚ)) * cubicWeight (dy - (j : ℚ))
      (a.1 + (d idx : ℚ) * weight, a.2.1 + (d (idx + 1) : ℚ) * weight,
       a.2.2.1 + (d (idx + 2) : ℚ) * weight, a.2.2.2 + (d (idx + 3) : ℚ) * weight))
      a) ((0 : ℚ), (0 : ℚ), (0 : ℚ), (0 : ℚ))
  (clampRound255 acc.1, clampRound255 acc.2.1,
   clampRound255 acc.2.2.1, clampRound255 acc.2.2.2)

/-- `lanczosInterpolation` from the source (radius 2, weight-normalised
when the weight sum is positive). -/
def lanczosInterpolation (M : Extern) (d : ℕ → ℕ) (x y : ℚ) (w h : ℕ) :
    ℕ × ℕ × ℕ × ℕ :=
  let x1 : ℤ := ⌊x⌋
  let y1 : ℤ := ⌊y⌋
  let acc := (intRange (-2) 3).foldl (fun (a : ℚ × ℚ × ℚ × ℚ × ℚ) j =>
    (intRange (-2) 3).foldl (fun (a : ℚ × ℚ × ℚ × ℚ × ℚ) i =>
      let px := (max 0 (min ((w : ℤ) - 1) (x1 + i))).toNat
      let py := (max 0 (min ((h : ℤ) - 1) (y1 + j))).toNat
      let idx := (py * w + px) * 4
      let dx := x - ((x1 + i : ℤ) : ℚ)
      let dy := y - ((y1 + j : ℤ) : ℚ)
      let weight := lanczosWeight M dx 2 * lanczosWeight M dy 2
      (a.1 + (d idx : ℚ) * weight, a.2.1 + (d (idx + 1) : ℚ) * weight,
       a.2.2.1 + (d (idx + 2) : ℚ) * weight, a.2.2.2.1 + (d (idx + 3) : ℚ) * weight,
       a.2.2.2.2 + weight)) a) ((0 : ℚ), (0 : ℚ), (0 : ℚ), (0 : ℚ), (0 : ℚ))
  let ws := acc.2.2.2.2
  let norm : ℚ × ℚ × ℚ × ℚ :=
    if 0 < ws then (acc.1 / ws, acc.2.1 / ws, acc.2.2.1 / ws, acc.2.2.2.1 / ws)
    else (acc.1, acc.2.1, acc.2.2.1, acc.2.2.2.1)
  (clampRound255 norm.1, clampRound255 norm.2.1,
   clampRound255 norm.2.2.1, clampRound255 norm.2.2.2)

/-- The per-target-pixel render loop shared by the bicubic and lanczos
paths of `upscaleImage`: sample the source at
`(x / targetW * width, y / targetH * height)` and write the four bytes
into the zero-initialised target `ImageData`. -/
def renderInterpolated (interp : (ℕ → ℕ) → ℚ → ℚ → ℕ → ℕ → ℕ × ℕ × ℕ × ℕ)
    (buf : PixelBuffer) (tw th : ℕ) : ℕ → ℕ :=
  ((List.range th).bind (fun y => (List.range tw).map (fun x => (y, x)))).foldl
    (fun f (p : ℕ × ℕ) =>
      let y := p.1
      let x := p.2
      let srcX := ((x : ℚ) / (tw : ℚ)) * (buf.width : ℚ)
      let srcY := ((y : ℚ) / (th : ℚ)) * (buf.height : ℚ)
      let rgba := interp buf.data srcX srcY buf.width buf.height
      let idx := (y * tw + x) * 4
      Function.update (Function.update (Function.update
        (Function.update f idx rgba.1) (idx + 1) rgba.2.1)
        (idx + 2) rgba.2.2.1) (idx + 3) rgba.2.2.2)
    (fun _ => 0)

/-- `upscaleImage` from the source.  There is no scale-factor
validation: the target canvas is simply set to
`⌊width*factor⌋ × ⌊height*factor⌋`.  A negative target (factor < 0)
wraps through `ToUint32` into an unallocatable canvas size, modelled as
an error; for `nearest`/`bilinear` the browser's built-in `drawImage`
resampling (external, `M.resample`) fills the target canvas of exactly
that size (a no-op on a 0-sized canvas); for `bicubic`/`lanczos`,
`createImageData` throws `IndexSizeError` on a 0-sized target, and the
per-pixel kernel loop fills the target otherwise. -/
def upscaleImage (M : Extern) (buf : PixelBuffer) (factor : ℚ)
    (algorithm : UpscaleAlgorithm) : Except String PixelBuffer :=
  let targetWidth : ℤ := ⌊(buf.width : ℚ) * factor⌋
  let targetHeight : ℤ := ⌊(buf.height : ℚ) * factor⌋
  if targetWidth < 0 ∨ targetHeight < 0 then
    Except.error "canvas dimension overflow"
  else
    match algorithm with
    | UpscaleAlgorithm.nearest =>
      Except.ok ⟨targetWidth.toNat, targetHeight.toNat,
        M.resample buf targetWidth.toNat targetHeight.toNat false⟩
    | UpscaleAlgorithm.bilinear =>
      Except.ok ⟨targetWidth.toNat, targetHeight.toNat,
        M.resample buf targetWidth.toNat targetHeight.toNat true⟩
    | UpscaleAlgorithm.bicubic =>
      if targetWidth = 0 ∨ targetHeight = 0 then
        Except.error "createImageData: IndexSizeError"
      else
        Except.ok ⟨targetWidth.toNat, targetHeight.toNat,
          renderInterpolated bicubicInterpolation buf
            targetWidth.toNat targetHeight.toNat⟩
    | UpscaleAlgorithm.lanczos =>
      if targetWidth = 0 ∨ targetHeight = 0 then
        Except.error "createImageData: IndexSizeError"
      else
        Except.ok ⟨targetWidth.toNat, targetHeight.toNat,
          renderInterpolated (lanczosInterpolation M) buf
            targetWidth.toNat targetHeight.toNat⟩

/-- Degree-8 Taylor polynomial of the exponential: the concrete
stand-in for Float64 `Math.exp` in the witness model `M0`.  On the
arguments actually evaluated in this file (`|x| ≤ 1`) its error is
below `1e-5`, far smaller than the margins of every fact proved with
it, and the Float64 result would round to the same bytes. -/
def expTaylor (x : ℚ) : ℚ :=
  1 + x + x ^ 2 / 2 + x ^ 3 / 6 + x ^ 4 / 24 + x ^ 5 / 120 + x ^ 6 / 720 +
    x ^ 7 / 5040 + x ^ 8 / 40320

/-- Rational floor-square-root stand-in for Float64 `Math.sqrt` in
`M0` (no theorem in this file depends on its values). -/
def ratSqrt (q : ℚ) : ℚ :=
  if q ≤ 0 then 0 else ((q.num.toNat * q.den).sqrt : ℚ) / (q.den : ℚ)

/-- A concrete external model used to instantiate theorems: Taylor
exponential, rational square root, and a trivial resampler. -/
def M0 : Extern :=
  { exp := expTaylor
    sqrt := ratSqrt
    sin := fun _ => 0
    pi := 314159265 / 100000000
    resample := fun buf _ _ _ => buf.data }

/- ------------------------------------------------------------------
   Claim C3: upscale validation and output size
   ------------------------------------------------------------------ -/

/-- C3 counterexample.  `upscaleImage` has no `InvalidScaleFactor`
check: with `nearest` and factor `0 ≤ 0` it silently returns an empty
0×0 buffer (no failure), and with the default `bicubic` and the
positive factor `1/200` on a 3×3 buffer it fails (`createImageData` on
a 0-sized target throws) even though `f > 0`. -/
theorem upscaleImage_no_scale_validation :
    (∃ out, upscaleImage M0 bufWhite3 0 UpscaleAlgorithm.nearest = Except.ok out ∧
      out.width = 0 ∧ out.height = 0) ∧
    (upscaleImage M0 bufWhite3 (1/200) UpscaleAlgorithm.bicubic
      = Except.error "createImageData: IndexSizeError") := by
  have hw0 : ⌊(bufWhite3.width : ℚ) * 0⌋ = 0 := by norm_num [bufWhite3]
  have hh0 : ⌊(bufWhite3.height : ℚ) * 0⌋ = 0 := by norm_num [bufWhite3]
  have hws : ⌊(bufWhite3.width : ℚ) * (1/200)⌋ = 0 := by norm_num [bufWhite3]
  have hhs : ⌊(bufWhite3.height : ℚ) * (1/200)⌋ = 0 := by norm_num [bufWhite3]
  constructor
  · refine ⟨⟨0, 0, M0.resample bufWhite3 0 0 false⟩, ?_, rfl, rfl⟩
    simp only [upscaleImage, hw0, hh0, Int.toNat_zero]
    norm_num
  · simp only [upscaleImage, hws, hhs]
    norm_num

/-- C3 (amended).  The code performs no scale validation.  For the
default `bicubic` algorithm: if both `⌊width*factor⌋ ≥ 1` and
`⌊height*factor⌋ ≥ 1` the call succeeds and returns a buffer of
exactly `⌊width*factor⌋ × ⌊height*factor⌋`; for every `factor ≤ 0` on
a buffer with `width ≥ 1` it fails — but through a canvas-level error
(negative wrap or 0-sized `createImageData`), not a dedicated
`InvalidScaleFactor` — and, per the counterexample, it also fails for
some positive factors, while `nearest`/`bilinear` silently return a
(possibly empty) buffer instead of failing. -/
theorem upscaleImage_bicubic_size (M : Extern) (buf : PixelBuffer) (factor : ℚ) :
    (1 ≤ ⌊(buf.width : ℚ) * factor⌋ → 1 ≤ ⌊(buf.height : ℚ) * factor⌋ →
      ∃ out, upscaleImage M buf factor UpscaleAlgorithm.bicubic = Except.ok out ∧
        out.width = (⌊(buf.width : ℚ) * factor⌋).toNat ∧
        out.height = (⌊(buf.height : ℚ) * factor⌋).toNat) ∧
    (factor ≤ 0 → 1 ≤ buf.width →
      ∃ msg, upscaleImage M buf factor UpscaleAlgorithm.bicubic
        = Except.error msg) := by
  constructor
  · intro htw hth
    have h1 : ¬(⌊(buf.width : ℚ) * factor⌋ < 0 ∨ ⌊(buf.height : ℚ) * factor⌋ < 0) := by
      omega
    have h2 : ¬(⌊(buf.width : ℚ) * factor⌋ = 0 ∨ ⌊(buf.height : ℚ) * factor⌋ = 0) := by
      omega
    simp only [upscaleImage, if_neg h1, if_neg h2]
    exact ⟨_, rfl, rfl, rfl⟩
  · intro hf hw
    have hwq : ((buf.width : ℚ)) * factor ≤ 0 :=
      mul_nonpos_iff.mpr (Or.inl ⟨by positivity, hf⟩)
    have hhq : ((buf.height : ℚ)) * factor ≤ 0 :=
      mul_nonpos_iff.mpr (Or.inl ⟨by positivity, hf⟩)
    have htw : ⌊(buf.width : ℚ) * factor⌋ ≤ 0 := Int.floor_nonpos hwq
    have hth : ⌊(buf.height : ℚ) * factor⌋ ≤ 0 := Int.floor_nonpos hhq
    by_cases hneg : ⌊(buf.width : ℚ) * factor⌋ < 0 ∨ ⌊(buf.height : ℚ) * factor⌋ < 0
    · simp only [upscaleImage, if_pos hneg]
      exact ⟨_, rfl⟩
    · simp only [upscaleImage, if_neg hneg, if_pos (by omega :
        ⌊(buf.width : ℚ) * factor⌋ = 0 ∨ ⌊(buf.height : ℚ) * factor⌋ = 0)]
      exact ⟨_, rfl⟩

/-- Witness for C3 (amended): a 3×3 buffer upscaled by 3/2 with bicubic
succeeds with a 4×4 output, and upscaled by factor 0 it errors. -/
theorem upscaleImage_bicubic_size_witness :
    (∃ out, upscaleImage M0 bufWhite3 (3/2) UpscaleAlgorithm.bicubic
        = Except.ok out ∧ out.width = 4 ∧ out.height = 4) ∧
    (∃ msg, upscaleImage M0 bufWhite3 0 UpscaleAlgorithm.bicubic
        = Except.error msg) := by
  constructor
  · obtain ⟨out, hout, hw, hh⟩ :=
      (upscaleImage_bicubic_size M0 bufWhite3 (3/2)).1
        (by norm_num [bufWhite3]) (by norm_num [bufWhite3])
    refine ⟨out, hout, ?_, ?_⟩
    · rw [hw]; norm_num [bufWhite3]; rfl
    · rw [hh]; norm_num [bufWhite3]; rfl
  · exact (upscaleImage_bicubic_size M0 bufWhite3 0).2 (by norm_num)
      (by norm_num [bufWhite3])

/- ------------------------------------------------------------------
   4.7  Watermark removal: options, sub-image and canvas helpers
   ------------------------------------------------------------------ -/

inductive WatermarkMethod
  | blur
  | inpaint
  | clone
  | frequency
  | ai
  deriving DecidableEq

/-- `WatermarkRemovalOptions` from `src/types/index.ts`; optional
fields model the `?`-marked TypeScript fields, with the per-call-site
destructuring defaults applied via `Option.getD` where the source
destructures them. -/
structure WatermarkRemovalOptions where
  method : WatermarkMethod
  watermarkRegion : Option Region
  blurIntensity : Option ℕ
  inpaintRadius : Option ℕ
  threshold : Option ℕ
  iterations : Option ℕ
  autoDetect : Option Bool

/-- A region lying fully outside a `w × h` buffer. -/
def FullyOutside (r : Region) (w h : ℕ) : Prop :=
  (w : ℤ) ≤ r.x ∨ (h : ℤ) ≤ r.y ∨ r.x + r.width ≤ 0 ∨ r.y + r.height ≤ 0

instance (r : Region) (w h : ℕ) : Decidable (FullyOutside r w h) := by
  rw [FullyOutside]; infer_instance

/-- `ctx.getImageData(x, y, sw, sh)` for an in-bounds rectangle: the
extracted rectangle's own row-major RGBA array. -/
def subData (d : ℕ → ℕ) (w x y sw sh : ℕ) : ℕ → ℕ := fun i =>
  if i < sw * sh * 4 then
    let p := i / 4
    d (((y + p / sw) * w + (x + p % sw)) * 4 + i % 4)
  else 0

/-- `ctx.putImageData(sub, x, y)` for an in-bounds rectangle: replace
the rectangle's bytes (alpha included) with the sub-image's. -/
def putSub (buf : PixelBuffer) (x y sw sh : ℕ) (sub : ℕ → ℕ) : PixelBuffer :=
  ⟨buf.width, buf.height, fun i =>
    let p := i / 4
    let px := p % buf.width
    let py := p / buf.width
    if i < buf.width * buf.height * 4 ∧ x ≤ px ∧ px < x + sw ∧ y ≤ py ∧ py < y + sh then
      sub (((py - y) * sw + (px - x)) * 4 + i % 4)
    else buf.data i⟩

/-- Canvas source-over compositing of one straight-alpha RGBA pixel
(what `drawImage` does when painting onto existing content), idealised
in exact arithmetic with `Uint8ClampedArray` rounding at the end. -/
def compositeOver (sr sg sb sa dr dg db da : ℕ) : ℕ × ℕ × ℕ × ℕ :=
  let asq : ℚ := (sa : ℚ) / 255
  let adq : ℚ := (da : ℚ) / 255
  let ra : ℚ := asq + adq * (1 - asq)
  if ra = 0 then (0, 0, 0, 0)
  else
    (u8 (((sr : ℚ) * asq + (dr : ℚ) * adq * (1 - asq)) / ra),
     u8 (((sg : ℚ) * asq + (dg : ℚ) * adq * (1 - asq)) / ra),
     u8 (((sb : ℚ) * asq + (db : ℚ) * adq * (1 - asq)) / ra),
     u8 (ra * 255))

/-- `ctx.drawImage(src, sx, sy, sw, sh, dx, dy, sw, sh)`: paint the
source rectangle onto the destination with source-over compositing,
clipped to both the destination canvas and the source bounds.  The
source array is read in full before any write (the snapshot semantics
of same-canvas `drawImage`), so the result is given pointwise. -/
def drawImageRect (buf : PixelBuffer) (src : ℕ → ℕ) (srcW srcH : ℕ)
    (sx sy sw sh dx dy : ℤ) : PixelBuffer :=
  ⟨buf.width, buf.height, fun i =>
    if i < buf.width * buf.height * 4 then
      let p := i / 4
      let px : ℤ := (p % buf.width : ℕ)
      let py : ℤ := (p / buf.width : ℕ)
      if dx ≤ px ∧ px < dx + sw ∧ dy ≤ py ∧ py < dy + sh ∧
          0 ≤ px - dx + sx ∧ px - dx + sx < (srcW : ℤ) ∧
          0 ≤ py - dy + sy ∧ py - dy + sy < (srcH : ℤ) then
        let sidx := ((py - dy + sy).toNat * srcW + (px - dx + sx).toNat) * 4
        let didx := p * 4
        let rgba := compositeOver (src sidx) (src (sidx + 1)) (src (sidx + 2))
          (src (sidx + 3)) (buf.data didx) (buf.data (didx + 1))
          (buf.data (didx + 2)) (buf.data (didx + 3))
        if i % 4 = 0 then rgba.1 else if i % 4 = 1 then rgba.2.1
        else if i % 4 = 2 then rgba.2.2.1 else rgba.2.2.2
      else buf.data i
    else buf.data i⟩

/- ------------------------------------------------------------------
   4.6  `detectWatermarkRegions`
   ------------------------------------------------------------------ -/

/-- `for (i = 0; i < bound; i += stride)` with a fixed positive stride
(used for the in-block sampling loops whose stride is the constant 4
or 8). -/
def stridedList (bound stride : ℕ) : List ℕ :=
  if stride = 0 then []
  else (List.range ((bound + stride - 1) / stride)).map (fun k => k * stride)

/-- `detectWatermarkRegions` from the source.  Strategy 1 slides an
adaptive block (size `min 64 ⌊min(w,h)/8⌋`, 50% overlap) over the
image and flags blocks whose sampled alphas are semi-transparent;
strategy 2 examines the four corners and the centre for low colour
diversity with extreme brightness; overlapping candidates are then
merged.  The outer sliding loops advance by `⌊blockSize/2⌋`, which is
`0` for small images — the fuelled loop returns `none` for that
non-termination. -/
def detectWatermarkRegions (d : ℕ → ℕ) (w h : ℕ) : Option (List Region) := do
  let blockSize := min 64 (min w h / 8)
  let stepSize := blockSize / 2
  let ys ← strideLoop (h + 1) 0 (h - blockSize) stepSize
  let xs ← strideLoop (w + 1) 0 (w - blockSize) stepSize
  let regions1 : List Region := ys.bind (fun y => xs.filterMap (fun x =>
    let alphas := (stridedList blockSize 4).bind (fun b2 =>
      (stridedList blockSize 4).filterMap (fun bx =>
        if x + bx < w ∧ y + b2 < h then
          some (d (((y + b2) * w + (x + bx)) * 4 + 3))
        else none))
    if alphas.length = 0 then none
    else
      let averageAlpha : ℚ := ((alphas.sum : ℕ) : ℚ) / (alphas.length : ℚ)
      let transparencyRatio : ℚ :=
        ((alphas.filter (fun a => decide (50 < a) && decide (a < 200))).length : ℚ) /
          (alphas.length : ℚ)
      if 1/5 < transparencyRatio ∧ 50 < averageAlpha ∧ averageAlpha < 200 then
        some ⟨(x : ℤ), (y : ℤ), (blockSize : ℤ), (blockSize : ℤ)⟩
      else none))
  let cornerSize := min 100 (min w h / 4)
  let corners : List (ℤ × ℤ) :=
    [(0, 0), ((w : ℤ) - cornerSize, 0), (0, (h : ℤ) - cornerSize),
     ((w : ℤ) - cornerSize, (h : ℤ) - cornerSize),
     (((w : ℤ) - cornerSize) / 2, ((h : ℤ) - cornerSize) / 2)]
  let regions2 : List Region := corners.filterMap (fun c =>
    if 0 ≤ c.1 ∧ 0 ≤ c.2 ∧ c.1 + cornerSize ≤ (w : ℤ) ∧ c.2 + cornerSize ≤ (h : ℤ) then
      let colors := (stridedList cornerSize 8).bind (fun b2 =>
        (stridedList cornerSize 8).map (fun bx =>
          let idx := ((c.2.toNat + b2) * w + (c.1.toNat + bx)) * 4
          (d idx, d (idx + 1), d (idx + 2))))
      if colors.length = 0 then none
      else
        let avgBrightness : ℚ :=
          (((colors.map (fun t => t.1 + t.2.1 + t.2.2)).sum : ℕ) : ℚ) / 3 /
            (colors.length : ℚ)
        let uniq := colors.foldl (fun (acc : List (ℕ × ℕ × ℕ)) t =>
          let key := (t.1 / 32, t.2.1 / 32, t.2.2 / 32)
          if key ∈ acc then acc else acc ++ [key]) []
        if (uniq.length : ℚ) < (colors.length : ℚ) * (3/10) ∧
            (180 < avgBrightness ∨ avgBrightness < 80) then
          some ⟨c.1, c.2, (cornerSize : ℤ), (cornerSize : ℤ)⟩
        else none
    else none)
  some (mergeOverlappingRegions (regions1 ++ regions2))

/-- `applySimpleBlur` from the source: plain box average of all four
channels over the radius, excluding out-of-bounds neighbours; each
output byte is written once from the input array, so the result is
given pointwise. -/
def applySimpleBlur (d : ℕ → ℕ) (w h : ℕ) (radius : ℕ) : ℕ → ℕ := fun i =>
  if i < w * h * 4 then
    let p := i / 4
    let x : ℤ := (p % w : ℕ)
    let y : ℤ := (p / w : ℕ)
    let pix := (intRange (-(radius : ℤ)) ((radius : ℤ) + 1)).bind (fun dy =>
      (intRange (-(radius : ℤ)) ((radius : ℤ) + 1)).filterMap (fun dx =>
        if 0 ≤ x + dx ∧ x + dx < (w : ℤ) ∧ 0 ≤ y + dy ∧ y + dy < (h : ℤ) then
          some ((y + dy).toNat * w + (x + dx).toNat)
        else none))
    u8 (((pix.map (fun q => d (q * 4 + i % 4))).sum : ℚ) / (pix.length : ℚ))
  else 0

/-- `autoDetectAndBlurWatermarks` from the source: detect candidate
regions, then for each one clamp it into bounds, copy it out, box-blur
the copy, and `drawImage` it back (source-over). -/
def autoDetectAndBlurWatermarks (buf : PixelBuffer) (blurIntensity : ℕ) :
    Option PixelBuffer :=
  (detectWatermarkRegions buf.data buf.width buf.height).map (fun regions =>
    regions.foldl (fun canvas r =>
      let vX : ℤ := max 0 (min r.x ((canvas.width : ℤ) - r.width))
      let vY : ℤ := max 0 (min r.y ((canvas.height : ℤ) - r.height))
      let vW : ℤ := min r.width ((canvas.width : ℤ) - vX)
      let vH : ℤ := min r.height ((canvas.height : ℤ) - vY)
      if 0 < vW ∧ 0 < vH then
        let temp := subData canvas.data canvas.width vX.toNat vY.toNat vW.toNat vH.toNat
        let blurred := applySimpleBlur temp vW.toNat vH.toNat blurIntensity
        drawImageRect canvas blurred vW.toNat vH.toNat 0 0 vW vH vX vY
      else canvas) buf)

/- ------------------------------------------------------------------
   4.7  Content-aware blur (`removeWatermarkByBlur`)
   ------------------------------------------------------------------ -/

/-- The 8-neighbour direction list of `detectLocalEdge`. -/
def directions8 : List (ℤ × ℤ) :=
  [(-1, -1), (-1, 0), (-1, 1), (0, -1), (0, 1), (1, -1), (1, 0), (1, 1)]

/-- `detectLocalEdge` from the source: region-border pixels are edges
by definition; otherwise a pixel is an edge when some in-bounds
8-neighbour differs in brightness (`(R+G+B)/3`) by more than 30. -/
def detectLocalEdge (d : ℕ → ℕ) (x y w h : ℕ) : Bool :=
  if x = 0 ∨ w ≤ x + 1 ∨ y = 0 ∨ h ≤ y + 1 then true
  else
    decide (∃ q ∈ directions8,
      0 ≤ (x : ℤ) + q.1 ∧ (x : ℤ) + q.1 < (w : ℤ) ∧
      0 ≤ (y : ℤ) + q.2 ∧ (y : ℤ) + q.2 < (h : ℤ) ∧
      30 < |getGray d ((x : ℤ) + q.1).toNat ((y : ℤ) + q.2).toNat w - getGray d x y w|)

/-- `getAdaptiveBlurredPixel` from the source: Gaussian-weighted RGB
average over radius `max 1 ⌊intensity/3⌋`, weight
`exp(-d²/(2r²))` (the float `distance*distance` is the exact `dx²+dy²`),
falling back to the centre pixel when the weight sum is not positive. -/
def getAdaptiveBlurredPixel (M : Extern) (d : ℕ → ℕ) (x y w h : ℕ)
    (intensity : ℕ) : ℚ × ℚ × ℚ :=
  let radius : ℕ := max 1 (intensity / 3)
  let acc := (intRange (-(radius : ℤ)) ((radius : ℤ) + 1)).foldl
    (fun (a : ℚ × ℚ × ℚ × ℚ) dy =>
      (intRange (-(radius : ℤ)) ((radius : ℤ) + 1)).foldl
        (fun (a : ℚ × ℚ × ℚ × ℚ) dx =>
          let nx := (x : ℤ) + dx
          let ny := (y : ℤ) + dy
          if 0 ≤ nx ∧ nx < (w : ℤ) ∧ 0 ≤ ny ∧ ny < (h : ℤ) then
            let idx := (ny.toNat * w + nx.toNat) * 4
            let weight := M.exp (-(((dx * dx + dy * dy : ℤ) : ℚ)) /
              (2 * (radius : ℚ) * (radius : ℚ)))
            (a.1 + (d idx : ℚ) * weight, a.2.1 + (d (idx + 1) : ℚ) * weight,
             a.2.2.1 + (d (idx + 2) : ℚ) * weight, a.2.2.2 + weight)
          else a) a)
    ((0 : ℚ), (0 : ℚ), (0 : ℚ), (0 : ℚ))
  if 0 < acc.2.2.2 then (acc.1 / acc.2.2.2, acc.2.1 / acc.2.2.2, acc.2.2.1 / acc.2.2.2)
  else ((d ((y * w + x) * 4) : ℚ), (d ((y * w + x) * 4 + 1) : ℚ),
        (d ((y * w + x) * 4 + 2) : ℚ))

/-- `applyContentAwareBlur` from the source, applied to an extracted
region: edge pixels are copied through (all four channels), non-edge
pixels get the Gaussian blur on RGB with alpha preserved.  The output
array is written at every in-range index exactly once, reading only the
input, so it is given pointwise. -/
def applyContentAwareBlur (M : Extern) (d : ℕ → ℕ) (w h : ℕ) (intensity : ℕ) :
    ℕ → ℕ := fun i =>
  if i < w * h * 4 then
    let p := i / 4
    let px := p % w
    let py := p / w
    if detectLocalEdge d px py w h = true then d i
    else if i % 4 = 3 then d i
    else
      let blurred := getAdaptiveBlurredPixel M d px py w h intensity
      if i % 4 = 0 then u8 blurred.1
      else if i % 4 = 1 then u8 blurred.2.1
      else u8 blurred.2.2
  else 0

/-- `removeWatermarkByBlur` from the source: with a region, clamp it
*into* the canvas (`validX = max(0, min(x, width - w))` …), extract it,
content-aware blur it, and put it back; a zero-or-negative clamped size
makes `getImageData`/`ImageData` throw, and the `catch` returns the
canvas unchanged.  Without a region, auto-detect when requested
(`none` models the detector's non-termination on small images). -/
def removeWatermarkByBlur (M : Extern) (buf : PixelBuffer)
    (options : WatermarkRemovalOptions) : Option PixelBuffer :=
  let blurIntensity := options.blurIntensity.getD 10
  match options.watermarkRegion with
  | some r =>
    let vX : ℤ := max 0 (min r.x ((buf.width : ℤ) - r.width))
    let vY : ℤ := max 0 (min r.y ((buf.height : ℤ) - r.height))
    let vW : ℤ := min r.width ((buf.width : ℤ) - vX)
    let vH : ℤ := min r.height ((buf.height : ℤ) - vY)
    if vW ≤ 0 ∨ vH ≤ 0 then some buf
    else
      some (putSub buf vX.toNat vY.toNat vW.toNat vH.toNat
        (applyContentAwareBlur M
          (subData buf.data buf.width vX.toNat vY.toNat vW.toNat vH.toNat)
          vW.toNat vH.toNat blurIntensity))
  | none =>
    if options.autoDetect.getD false then
      autoDetectAndBlurWatermarks buf blurIntensity
    else some buf

/- ------------------------------------------------------------------
   4.7  Iterative inpainting (`removeWatermarkByInpainting`)
   ------------------------------------------------------------------ -/

/-- `createInpaintingMask` from the source: mark every in-bounds pixel
of `[startX, endX) × [startY, endY)`. -/
def createInpaintingMask (w h : ℕ) (startX startY endX endY : ℤ) : ℕ → Bool :=
  ((intRange startY endY).bind (fun py =>
    (intRange startX endX).map (fun px => (py, px)))).foldl
    (fun m (q : ℤ × ℤ) =>
      if 0 ≤ q.2 ∧ q.2 < (w : ℤ) ∧ 0 ≤ q.1 ∧ q.1 < (h : ℤ) then
        Function.update m (q.1.toNat * w + q.2.toNat) true
      else m)
    (fun _ => false)

/-- `calculateTextureSimilarity` from the source: average local
gradient magnitude and edge density over the 5×5 window around the
candidate neighbour (the unused `radius` parameter of the source is
omitted); `Math.sqrt` and `Math.exp` come from the external model. -/
def calculateTextureSimilarity (M : Extern) (d : ℕ → ℕ) (x y w h : ℕ) : ℚ :=
  let acc := (intRange (-2) 3).foldl (fun (a : ℚ × ℕ) dy =>
    (intRange (-2) 3).foldl (fun (a : ℚ × ℕ) dx =>
      let nx := (x : ℤ) + dx
      let ny := (y : ℤ) + dy
      if 1 ≤ nx ∧ nx < (w : ℤ) - 1 ∧ 1 ≤ ny ∧ ny < (h : ℤ) - 1 then
        let centerGray := getGray d nx.toNat ny.toNat w
        let rightGray := getGray d (nx.toNat + 1) ny.toNat w
        let bottomGray := getGray d nx.toNat (ny.toNat + 1) w
        let gx := rightGray - centerGray
        let gy := bottomGray - centerGray
        let magnitude := M.sqrt (gx * gx + gy * gy)
        (a.1 + magnitude, if 10 < magnitude then a.2 + 1 else a.2)
      else a) a)
    ((0 : ℚ), (0 : ℕ))
  M.exp (-(acc.1 / 25) / 50) * (1 - ((acc.2 : ℚ) / 25) * (1/2)) + 1/10

/-- `smartInpaintPixel` from the source: collect unmasked in-bounds
neighbours with `0 < distance ≤ radius`, weight each by
`1/(1+distance) · textureSimilarity`, and return the rounded weighted
RGB average, falling back to mid-gray `(128,128,128)` when there are no
valid neighbours or no positive weight. -/
def smartInpaintPixel (M : Extern) (d : ℕ → ℕ) (x y w h : ℕ) (radius : ℕ)
    (mask : ℕ → Bool) : ℤ × ℤ × ℤ :=
  let validPixels := (intRange (-(radius : ℤ)) ((radius : ℤ) + 1)).bind (fun dy =>
    (intRange (-(radius : ℤ)) ((radius : ℤ) + 1)).filterMap (fun dx =>
      let nx := (x : ℤ) + dx
      let ny := (y : ℤ) + dy
      if 0 ≤ nx ∧ nx < (w : ℤ) ∧ 0 ≤ ny ∧ ny < (h : ℤ) ∧
          mask (ny.toNat * w + nx.toNat) = false then
        let idx := (ny.toNat * w + nx.toNat) * 4
        let distance := M.sqrt (((dx * dx + dy * dy : ℤ) : ℚ))
        if 0 < distance ∧ distance ≤ (radius : ℚ) then
          some ((d idx : ℚ), (d (idx + 1) : ℚ), (d (idx + 2) : ℚ), distance,
            calculateTextureSimilarity M d nx.toNat ny.toNat w h)
        else none
      else none))
  match validPixels with
  | [] => (128, 128, 128)
  | _ =>
    let acc := validPixels.foldl (fun (a : ℚ × ℚ × ℚ × ℚ) p =>
      let weight := 1 / (1 + p.2.2.2.1) * p.2.2.2.2
      (a.1 + p.1 * weight, a.2.1 + p.2.1 * weight,
       a.2.2.1 + p.2.2.1 * weight, a.2.2.2 + weight))
      ((0 : ℚ), (0 : ℚ), (0 : ℚ), (0 : ℚ))
    if 0 < acc.2.2.2 then
      (jsRound (acc.1 / acc.2.2.2), jsRound (acc.2.1 / acc.2.2.2),
       jsRound (acc.2.2.1 / acc.2.2.2))
    else (128, 128, 128)

/-- `advancedInpainting` from the source: build the region mask, then
for each of `iterations` passes recompute every masked pixel in the
radius-padded window from the *previous* pass's full result
(`tempResult` starts as a copy of `result` and is copied back wholesale
at the end of the pass). -/
def advancedInpainting (M : Extern) (d : ℕ → ℕ) (w h : ℕ)
    (startX startY endX endY : ℤ) (radius iterations : ℕ) : ℕ → ℕ :=
  let mask := createInpaintingMask w h startX startY endX endY
  (List.range iterations).foldl (fun result _ =>
    ((intRange (max 0 (startY - radius)) (min (h : ℤ) (endY + radius))).bind (fun py =>
      (intRange (max 0 (startX - radius)) (min (w : ℤ) (endX + radius))).map
        (fun px => (py, px)))).foldl
      (fun temp (q : ℤ × ℤ) =>
        if mask (q.1.toNat * w + q.2.toNat) = true then
          let rgb := smartInpaintPixel M result q.2.toNat q.1.toNat w h radius mask
          let idx := (q.1.toNat * w + q.2.toNat) * 4
          Function.update (Function.update (Function.update temp
            idx (u8 (rgb.1 : ℚ))) (idx + 1) (u8 (rgb.2.1 : ℚ)))
            (idx + 2) (u8 (rgb.2.2 : ℚ))
        else temp)
      result)
    d

/-- `autoInpaintWatermarks` from the source: detect regions and inpaint
each in turn, copying the processed RGB back over the (bounds-checked)
region. -/
def autoInpaintWatermarks (M : Extern) (buf : PixelBuffer)
    (radius iterations : ℕ) : Option PixelBuffer :=
  (detectWatermarkRegions buf.data buf.width buf.height).map (fun regions =>
    ⟨buf.width, buf.height,
      regions.foldl (fun d r =>
        let processed := advancedInpainting M d buf.width buf.height
          r.x r.y (r.x + r.width) (r.y + r.height) radius iterations
        ((intRange r.y (r.y + r.height)).bind (fun py =>
          (intRange r.x (r.x + r.width)).map (fun px => (py, px)))).foldl
          (fun d2 (q : ℤ × ℤ) =>
            if 0 ≤ q.2 ∧ q.2 < (buf.width : ℤ) ∧ 0 ≤ q.1 ∧ q.1 < (buf.height : ℤ) then
              let idx := (q.1.toNat * buf.width + q.2.toNat) * 4
              Function.update (Function.update (Function.update d2
                idx (processed idx)) (idx + 1) (processed (idx + 1)))
                (idx + 2) (processed (idx + 2))
            else d2)
          d) buf.data⟩)

/-- `removeWatermarkByInpainting` from the source: clamp the region's
span to `[max 0 x, min width (x+w)) × [max 0 y, min height (y+h))`,
run `advancedInpainting`, and copy the processed RGB (alpha kept) back
over that span; without a region, auto-detect and inpaint. -/
def removeWatermarkByInpainting (M : Extern) (buf : PixelBuffer)
    (options : WatermarkRemovalOptions) : Option PixelBuffer :=
  let inpaintRadius := options.inpaintRadius.getD 5
  let iterations := options.iterations.getD 3
  match options.watermarkRegion with
  | some r =>
    let startX : ℤ := max 0 r.x
    let startY : ℤ := max 0 r.y
    let endX : ℤ := min (buf.width : ℤ) (r.x + r.width)
    let endY : ℤ := min (buf.height : ℤ) (r.y + r.height)
    let processed := advancedInpainting M buf.data buf.width buf.height
      startX startY endX endY inpaintRadius iterations
    some ⟨buf.width, buf.height,
      ((intRange startY endY).bind (fun py =>
        (intRange startX endX).map (fun px => (py, px)))).foldl
        (fun d2 (q : ℤ × ℤ) =>
          let idx := (q.1.toNat * buf.width + q.2.toNat) * 4
          Function.update (Function.update (Function.update d2
            idx (processed idx)) (idx + 1) (processed (idx + 1)))
            (idx + 2) (processed (idx + 2)))
        buf.data⟩
  | none => autoInpaintWatermarks M buf inpaintRadius iterations

/- ------------------------------------------------------------------
   4.7  Cloning, the `ai` fallback, and the dispatcher
   ------------------------------------------------------------------ -/

/-- `removeWatermarkByCloning` from the source: clone a same-sized
rectangle from 10px above/below (comparing `region.y` against
`region.height` as the source does), else from left/right; silently a
no-op when no donor rectangle fits. -/
def removeWatermarkByCloning (buf : PixelBuffer)
    (options : WatermarkRemovalOptions) : PixelBuffer :=
  match options.watermarkRegion with
  | some r =>
    let sourceY : ℤ := if r.y > r.height then r.y - r.height - 10
      else r.y + r.height + 10
    if 0 ≤ sourceY ∧ sourceY + r.height < (buf.height : ℤ) then
      drawImageRect buf buf.data buf.width buf.height
        r.x sourceY r.width r.height r.x r.y
    else
      let sourceX : ℤ := if r.x > r.width then r.x - r.width - 10
        else r.x + r.width + 10
      if 0 ≤ sourceX ∧ sourceX + r.width < (buf.width : ℤ) then
        drawImageRect buf buf.data buf.width buf.height
          sourceX r.y r.width r.height r.x r.y
      else buf
  | none => buf

/-- `removeWatermarkByAI` from the source: an acknowledged placeholder
that delegates to the inpainting strategy. -/
def removeWatermarkByAI (M : Extern) (buf : PixelBuffer)
    (options : WatermarkRemovalOptions) : Option PixelBuffer :=
  removeWatermarkByInpainting M buf options

/-- `removeWatermark` from the source: five-way dispatch on
`options.method` (the unknown-method default returns the canvas
untouched, which cannot occur for the modelled enum). -/
def removeWatermark (M : Extern) (buf : PixelBuffer)
    (options : WatermarkRemovalOptions) : Option PixelBuffer :=
  match options.method with
  | WatermarkMethod.blur => removeWatermarkByBlur M buf options
  | WatermarkMethod.inpaint => removeWatermarkByInpainting M buf options
  | WatermarkMethod.clone => some (removeWatermarkByCloning buf options)
  | WatermarkMethod.frequency => some (removeWatermarkByFrequencyAnalysis buf)
  | WatermarkMethod.ai => removeWatermarkByAI M buf options

/- ------------------------------------------------------------------
   Claim C9: `ai` is an alias of `inpaint`
   ------------------------------------------------------------------ -/

/-- C9.  The `ai` watermark-removal strategy is an explicit alias of
the `inpaint` strategy: under identical options, `removeWatermark` with
method `ai` returns exactly the same buffer as with method `inpaint`
(`removeWatermarkByAI` delegates to `removeWatermarkByInpainting`). -/
theorem removeWatermark_ai_eq_inpaint (M : Extern) (buf : PixelBuffer)
    (r : Option Region) (bi ir th it : Option ℕ) (ad : Option Bool) :
    removeWatermark M buf ⟨WatermarkMethod.ai, r, bi, ir, th, it, ad⟩
      = removeWatermark M buf ⟨WatermarkMethod.inpaint, r, bi, ir, th, it, ad⟩ := rfl

/- ------------------------------------------------------------------
   Claim C1: fully-outside regions under `inpaint` and `blur`
   ------------------------------------------------------------------ -/

theorem inpaintSpanList_nil {r : Region} {w h : ℕ} (hout : FullyOutside r w h) :
    ((intRange (max 0 r.y) (min (h : ℤ) (r.y + r.height))).bind (fun py =>
      (intRange (max 0 r.x) (min (w : ℤ) (r.x + r.width))).map
        (fun px => (py, px)))) = ([] : List (ℤ × ℤ)) := by
  rcases hout with hx | hy | hx2 | hy2
  · rw [intRange_eq_nil
      ((min_le_left ((w : ℤ)) _).trans (hx.trans (le_max_right 0 r.x)))]
    simp
  · rw [intRange_eq_nil
      ((min_le_left ((h : ℤ)) _).trans (hy.trans (le_max_right 0 r.y)))]
    rfl
  · rw [intRange_eq_nil
      ((min_le_right ((w : ℤ)) _).trans (hx2.trans (le_max_left 0 r.x)))]
    simp
  · rw [intRange_eq_nil
      ((min_le_right ((h : ℤ)) _).trans (hy2.trans (le_max_left 0 r.y)))]
    rfl

/-- C1 (amended).  For a region lying fully outside the buffer bounds,
the `inpaint` operation's clamped span
`[max 0 x, min width (x+w)) × [max 0 y, min height (y+h))` is empty, so
the buffer is returned byte-for-byte unchanged — a no-op with no
out-of-range write.  (For `blur` the claim fails: its clamping
`validX = max(0, min(x, width - w))` relocates a fully-outside region
*into* the canvas and blurs there — see the counterexample.) -/
theorem removeWatermarkByInpainting_outside (M : Extern) (buf : PixelBuffer)
    (options : WatermarkRemovalOptions) (r : Region)
    (hreg : options.watermarkRegion = some r)
    (hout : FullyOutside r buf.width buf.height) :
    removeWatermarkByInpainting M buf options = some buf := by
  simp only [removeWatermarkByInpainting, hreg]
  rw [inpaintSpanList_nil hout]
  rfl

/-- A 2×2 buffer with nontrivial bytes. -/
def bufTiny2 : PixelBuffer := ⟨2, 2, fun i => i % 7⟩

/-- Inpainting options with a region fully outside a 2×2 buffer. -/
def optsInpaintOutside : WatermarkRemovalOptions :=
  ⟨WatermarkMethod.inpaint, some ⟨10, 0, 2, 2⟩, none, none, none, none, none⟩

/-- Witness for C1 (amended) at a concrete buffer and region. -/
theorem removeWatermarkByInpainting_outside_witness :
    FullyOutside ⟨10, 0, 2, 2⟩ 2 2 ∧
    removeWatermarkByInpainting M0 bufTiny2 optsInpaintOutside = some bufTiny2 :=
  ⟨by decide,
   removeWatermarkByInpainting_outside M0 bufTiny2 optsInpaintOutside
     ⟨10, 0, 2, 2⟩ rfl (by decide)⟩

/-- A 3×3 opaque buffer whose centre pixel (1,1) is RGB (30,30,30) and
whose other pixels are black. -/
def bufBlur3 : PixelBuffer :=
  ⟨3, 3, fun i => if i % 4 = 3 then 255 else if i / 4 = 4 then 30 else 0⟩

/-- Blur options with a region fully outside the 3×3 buffer and
explicit `blurIntensity 0` (Gaussian radius `max 1 ⌊0/3⌋ = 1`). -/
def optsBlurOutside : WatermarkRemovalOptions :=
  ⟨WatermarkMethod.blur, some ⟨10, 0, 3, 3⟩, some 0, none, none, none, none⟩

theorem bufBlur3_sub : ∀ j, j < 36 → subData bufBlur3.data 3 0 0 3 3 j = bufBlur3.data j := by
  intro j hj
  simp only [subData]
  rw [if_pos (by omega : j < 3 * 3 * 4)]
  congr 1
  omega

theorem bufBlur3_gray : ∀ a b : ℕ, a < 3 → b < 3 →
    getGray (subData bufBlur3.data 3 0 0 3 3) a b 3
      = if b * 3 + a = 4 then 30 else 0 := by
  intro a b ha hb
  rw [getGray]
  rw [bufBlur3_sub ((b * 3 + a) * 4) (by omega),
      bufBlur3_sub ((b * 3 + a) * 4 + 1) (by omega),
      bufBlur3_sub ((b * 3 + a) * 4 + 2) (by omega)]
  simp only [bufBlur3]
  rw [if_neg (by omega : ¬((b * 3 + a) * 4) % 4 = 3),
      if_neg (by omega : ¬((b * 3 + a) * 4 + 1) % 4 = 3),
      if_neg (by omega : ¬((b * 3 + a) * 4 + 2) % 4 = 3),
      (by omega : ((b * 3 + a) * 4) / 4 = b * 3 + a),
      (by omega : ((b * 3 + a) * 4 + 1) / 4 = b * 3 + a),
      (by omega : ((b * 3 + a) * 4 + 2) / 4 = b * 3 + a)]
  by_cases h4 : b * 3 + a = 4
  · rw [if_pos h4, if_pos h4]
    norm_num
  · rw [if_neg h4, if_neg h4]
    norm_num

theorem bufBlur3_edge_centre :
    detectLocalEdge (subData bufBlur3.data 3 0 0 3 3) 1 1 3 3 = false := by
  rw [detectLocalEdge, if_neg (by norm_num)]
  apply decide_eq_false
  rintro ⟨q, hq, hc1, hc2, hc3, hc4, hc5⟩
  fin_cases hq <;>
    (rw [bufBlur3_gray _ _ (by omega) (by omega),
         bufBlur3_gray _ _ (by omega) (by omega),
         if_neg (by omega), if_pos (by omega)] at hc5 <;>
     norm_num at hc5)

set_option maxRecDepth 4000 in
theorem bufBlur3_blur_val :
    (getAdaptiveBlurredPixel M0 (subData bufBlur3.data 3 0 0 3 3) 1 1 3 3 0).1
      = 25804800 / 4212763 := by
  have hrange : intRange (-((1 : ℕ) : ℤ)) (((1 : ℕ) : ℤ) + 1) = [-1, 0, 1] := by decide
  simp only [getAdaptiveBlurredPixel, (by norm_num : max 1 (0 / 3) = 1), hrange,
    List.foldl_cons, List.foldl_nil]
  norm_num [M0, expTaylor, subData, bufBlur3, (by decide : Int.toNat 2 = 2)]

theorem bufBlur3_blur_centre :
    u8 ((getAdaptiveBlurredPixel M0 (subData bufBlur3.data 3 0 0 3 3) 1 1 3 3 0).1) = 6 := by
  rw [bufBlur3_blur_val]
  simp only [u8]
  rw [if_neg (by norm_num), if_neg (by norm_num)]
  rw [(by norm_num : ⌊(25804800 / 4212763 : ℚ)⌋ = 6)]
  rw [if_pos (by norm_num)]
  rfl

/-- C1 counterexample.  The region `⟨10, 0, 3, 3⟩` lies fully outside
the 3×3 buffer, yet `removeWatermarkByBlur` does not treat it as a
no-op: its clamping (`validX = max(0, min(x, width - w))`) relocates
the region to the in-bounds rectangle `(0,0,3,3)` and blurs it, turning
the centre pixel's red byte from 30 into 6 — the buffer is not returned
byte-for-byte unchanged, refuting the claim for `blur`. -/
theorem removeWatermarkByBlur_outside_changes :
    FullyOutside ⟨10, 0, 3, 3⟩ 3 3 ∧
    ∃ out, removeWatermarkByBlur M0 bufBlur3 optsBlurOutside = some out ∧
      out.data 16 = 6 ∧ bufBlur3.data 16 = 30 := by
  refine ⟨by decide, ?_⟩
  have hstep : removeWatermarkByBlur M0 bufBlur3 optsBlurOutside
      = some (putSub bufBlur3 0 0 3 3
          (applyContentAwareBlur M0 (subData bufBlur3.data 3 0 0 3 3) 3 3 0)) := rfl
  refine ⟨_, hstep, ?_, by decide⟩
  have hput : (putSub bufBlur3 0 0 3 3
      (applyContentAwareBlur M0 (subData bufBlur3.data 3 0 0 3 3) 3 3 0)).data 16
      = applyContentAwareBlur M0 (subData bufBlur3.data 3 0 0 3 3) 3 3 0 16 := by
    simp only [putSub]
    norm_num [bufBlur3]
  rw [hput]
  simp only [applyContentAwareBlur]
  rw [if_pos (by norm_num : (16 : ℕ) < 3 * 3 * 4)]
  rw [(by norm_num : (16 : ℕ) / 4 % 3 = 1), (by norm_num : (16 : ℕ) / 4 / 3 = 1)]
  rw [bufBlur3_edge_centre]
  rw [if_neg (by decide : ¬(false = true))]
  rw [if_neg (by norm_num : ¬((16 : ℕ) % 4 = 3))]
  rw [if_pos (by trivial : (True : Prop))]
  exact bufBlur3_blur_centre

/-- Witness for C5 (amended) on the concrete 10×10 buffer. -/
theorem detectBackgroundColor_returns_border_sample_witness :
    ∃ samples c, bgSamples bufGray10 = some samples ∧
      detectBackgroundColor bufGray10 = some c ∧ c ∈ samples :=
  detectBackgroundColor_returns_border_sample bufGray10 (by decide) (by decide)
